import Mathlib

/-!
Verification of pyctr's selective virtualization compiler against its
specification.  The definitions below are shallow embeddings of the Python
source: `Scope` and its operations come from
`transformers/virtualization/scoping.py`, the default overload hooks
(`init`, `assign`, `read`, `and_`, `or_`) from `overloads/py_defaults.py`,
`execute_isolated` from `overloads/staging.py`, the rewrite passes from
`transformers/virtualization/{control_flow,variables,logical_ops}.py`, and
closure reattachment from `api/conversion.py`.  Python `set`s of names are
modelled as duplicate-free insertion lists, mutable `Variable` objects as
cells in an explicit store indexed by handle, and exceptions as `Except`.
-/

namespace Pyctr

/-- Insertion into a Python `set` modelled as a list: a no-op when the
element is already present. -/
def insertName (v : String) (l : List String) : List String :=
  if v ∈ l then l else v :: l

/-- `set.remove` (here: remove every occurrence; the lists we build are
duplicate-free, so this agrees with removing the one occurrence). -/
def removeName (v : String) (l : List String) : List String :=
  l.filter (fun x => x ≠ v)

/-- `Scope` from `scoping.py`: parent pointer plus the four name sets
`locals`, `free`, `nonlocals`, `globals` (`func_name` is only used for
printing and is omitted). -/
inductive Scope : Type where
  | mk (parent : Option Scope) (locals : List String) (free : List String)
       (nonlocals : List String) (globals : List String)

def Scope.parent : Scope → Option Scope
  | .mk p _ _ _ _ => p

def Scope.locals : Scope → List String
  | .mk _ ls _ _ _ => ls

def Scope.free : Scope → List String
  | .mk _ _ fs _ _ => fs

def Scope.nonlocals : Scope → List String
  | .mk _ _ _ ns _ => ns

def Scope.globals : Scope → List String
  | .mk _ _ _ _ gs => gs

/-- `Scope.__init__` with no parent: all four sets empty. -/
def Scope.empty : Scope := .mk none [] [] [] []

/-- `Scope.add_free`: `self.free.add(var)` (nothing else is touched). -/
def Scope.add_free : Scope → String → Scope
  | .mk p ls fs ns gs, v => .mk p ls (insertName v fs) ns gs

/-- `Scope.add_local`: removes `var` from `free` when present, then adds it
to `locals`. -/
def Scope.add_local : Scope → String → Scope
  | .mk p ls fs ns gs, v => .mk p (insertName v ls) (removeName v fs) ns gs

/-- `Scope.add_nonlocal`: removes `var` from `locals` when present, then
adds it to `nonlocals`. -/
def Scope.add_nonlocal : Scope → String → Scope
  | .mk p ls fs ns gs, v => .mk p (removeName v ls) fs (insertName v ns) gs

/-- `Scope.add_global`: removes `var` from `locals` when present, then adds
it to `globals`. -/
def Scope.add_global : Scope → String → Scope
  | .mk p ls fs ns gs, v => .mk p (removeName v ls) fs ns (insertName v gs)

def Scope.is_local (s : Scope) (v : String) : Bool := v ∈ s.locals

def Scope.is_free (s : Scope) (v : String) : Bool := v ∈ s.free

def Scope.is_global (s : Scope) (v : String) : Bool := v ∈ s.globals

def Scope.is_nonlocal (s : Scope) (v : String) : Bool := v ∈ s.nonlocals

/-- `Scope.should_virtualize`: local names virtualize; nonlocal/free names
defer to the parent (`self.parent and self.parent.should_virtualize(var)`,
which is falsy when there is no parent); everything else does not. -/
def Scope.should_virtualize : Scope → String → Bool
  | .mk parent ls fs ns _, v =>
    if v ∈ ls then true
    else if v ∈ ns || v ∈ fs then
      match parent with
      | some p => p.should_virtualize v
      | none => false
    else false

/-! ### The default overload's storage model (`overloads/py_defaults.py`)

`Variable` objects are mutable; we model the heap of all allocated `Variable`s
as an explicit store and a `Variable` reference as its index (`handle`) into
that store.  A stored value is either an `Undefined` marker (carrying the name
it was created with), a reference to another `Variable` (as produced for
virtualized for-loop targets), or an ordinary host value. -/

/-- A Python value as seen by the default overload: `Undefined(name)`, a
`Variable` (modelled as a handle into the store), or a plain host value. -/
inductive Val (α : Type) where
  | undefined (name : String)
  | varref (h : Nat)
  | prim (a : α)
deriving DecidableEq

/-- A `py_defaults.Variable` object: its mutable `val` and its declared
`name`. -/
structure VarCell (α : Type) where
  val : Val α
  name : String
deriving DecidableEq

/-- The heap of allocated `Variable` objects. -/
structure Store (α : Type) where
  cells : List (VarCell α)
deriving DecidableEq

/-- Overwrite the `val` of the cell at index `h` (a no-op past the end of the
list: a handle obtained from `init` is always in range). -/
def setValCells {α : Type} (v : Val α) : List (VarCell α) → Nat → List (VarCell α)
  | [], _ => []
  | c :: cs, 0 => { c with val := v } :: cs
  | c :: cs, n + 1 => c :: setValCells v cs n

/-- `var.val = v` for the `Variable` at handle `h`. -/
def Store.setVal {α : Type} (s : Store α) (h : Nat) (v : Val α) : Store α :=
  ⟨setValCells v s.cells h⟩

/-- The current `val` of the `Variable` at handle `h`. -/
def Store.getVal? {α : Type} (s : Store α) (h : Nat) : Option (Val α) :=
  (s.cells.get? h).map VarCell.val

/-- `getVal?` with a dummy default, for handles known to be in range. -/
def Store.getValD {α : Type} (s : Store α) (h : Nat) : Val α :=
  (s.getVal? h).getD (.undefined "")

/-- Errors raised by the embedded fragments of `py_defaults.py`. -/
inductive PyError where
  | unboundLocal (msg : String)
  | assertionFailed
  | recursionLimit
deriving DecidableEq

/-- The `PyctUnboundLocalError` message built by `py_defaults.read`. -/
def unboundMsg (name : String) : String :=
  "local variable '" ++ name ++ "' referenced before assignment"

namespace py_defaults

/-- `py_defaults.init(name)`: allocate `Variable(Undefined(name), name)`;
returns the grown store and the fresh handle. -/
def init {α : Type} (s : Store α) (name : String) : Store α × Nat :=
  (⟨s.cells ++ [⟨.undefined name, name⟩]⟩, s.cells.length)

/-- `py_defaults.assign(lhs, rhs)`: `lhs.val = rhs; return lhs` — the handle
returned is the very handle passed in. -/
def assign {α : Type} (s : Store α) (lhs : Nat) (rhs : Val α) : Store α × Nat :=
  (s.setVal lhs rhs, lhs)

/-- `py_defaults.read(var)`: the `assert isinstance(var, Variable)` becomes an
`assertionFailed` for a dangling handle; a still-`Undefined` value raises
`PyctUnboundLocalError` with a message naming `var.val.name`; a `Variable`
value is dereferenced recursively (`fuel` bounds the chain, mirroring Python's
recursion limit); otherwise the value is returned. -/
def read {α : Type} (s : Store α) : Nat → Nat → Except PyError (Val α)
  | 0, _ => .error .recursionLimit
  | fuel + 1, h =>
    match s.getVal? h with
    | none => .error .assertionFailed
    | some (.undefined name) => .error (.unboundLocal (unboundMsg name))
    | some (.varref h2) => read s fuel h2
    | some (.prim a) => .ok (.prim a)

end py_defaults

/-- An event on the store between `init` and `read`: some other allocation or
some assignment. -/
inductive StoreOp (α : Type) where
  | opInit (name : String)
  | opAssign (h : Nat) (v : Val α)
deriving DecidableEq

/-- Whether the operation is an assignment to handle `h`. -/
def StoreOp.isAssignTo {α : Type} : StoreOp α → Nat → Bool
  | .opAssign h _, h2 => h == h2
  | .opInit _, _ => false

/-- Run one store operation. -/
def runOp {α : Type} (s : Store α) : StoreOp α → Store α
  | .opInit name => (py_defaults.init s name).1
  | .opAssign h v => (py_defaults.assign s h v).1

/-- Run a trace of store operations left to right. -/
def runOps {α : Type} (s : Store α) (ops : List (StoreOp α)) : Store α :=
  ops.foldl runOp s

namespace staging

/-- `staging.execute_isolated(func, func_freevars)`: snapshot the `val` of
every handle in `func_freevars`, run `func`, capture the handles' values after
the run, then write the snapshot back.  Returns
`((modified_vals, return_vals), store after restoration)`. -/
def execute_isolated {α ρ : Type} (func : Store α → Store α × ρ)
    (func_freevars : List Nat) (s : Store α) : (List (Val α) × ρ) × Store α :=
  let original_vals := func_freevars.map s.getValD
  let fr := func s
  let modified_vals := func_freevars.map fr.1.getValD
  let restored := (func_freevars.zip original_vals).foldl
      (fun st p => st.setVal p.1 p.2) fr.1
  ((modified_vals, fr.2), restored)

end staging

/-- Concrete branch thunk used to instantiate the `execute_isolated`
specification: writes `1` to handle `0` and returns `42`. -/
def branchThunkEx : Store Int → Store Int × Int :=
  fun st => (st.setVal 0 (.prim 1), 42)

/-- Concrete one-cell store used to instantiate the `execute_isolated`
specification. -/
def storeEx : Store Int := ⟨[⟨.prim 0, "x"⟩]⟩

/-! ### Boolean chains (`logical_ops.py` and `py_defaults.and_/or_/not_`)

Source boolean expressions are rewritten by `LogicalOpTransformer`; the
rewritten tree is then evaluated under the default overload, whose `and_` and
`or_` receive the first operand's value plus a tuple of zero-argument lambdas
and force a lambda only while the outcome is undecided.  Values are modelled
by `PyV` (integers and booleans, enough to separate an operand's value from
its truthiness), and evaluation is instrumented with the list of function
names called, in order. -/

/-- A Python value flowing through a boolean chain. -/
inductive PyV where
  | int (n : Int)
  | bool (b : Bool)
deriving DecidableEq

/-- Python truthiness. -/
def PyV.truthy : PyV → Bool
  | .int n => n != 0
  | .bool b => b

/-- Source expressions visited by the Logical-Operators pass: constants,
zero-argument calls, `and`/`or` chains (gast `BoolOp`s) and `not`. -/
inductive BExpr where
  | const (v : PyV)
  | call (fname : String)
  | andE (values : List BExpr)
  | orE (values : List BExpr)
  | notE (e : BExpr)

mutual
/-- Expressions of the rewritten tree: the host-native forms (left in place
when the overload lacks the hook) plus the generated
`overload.and_(x, (operands,))` / `or_` / `not_` calls. -/
inductive GExpr where
  | const (v : PyV)
  | call (fname : String)
  | andE (values : List GExpr)
  | orE (values : List GExpr)
  | notE (e : GExpr)
  | ovAnd (x : GExpr) (operands : List GThunk)
  | ovOr (x : GExpr) (operands : List GThunk)
  | ovNot (x : GExpr)

/-- A generated `lambda: body`, as built by `_make_lambda_nodes`. -/
inductive GThunk where
  | thunk (body : GExpr)
end

mutual
/-- `LogicalOpTransformer.visit_BoolOp` / `visit_UnaryOp`: operands are
visited first (`generic_visit`); when the overload has the matching hook an
`and`/`or` chain becomes `overload.<op>_(values[0], (lambda: v, ...))` over
`values[1:]`, and `not x` becomes `overload.not_(x)`; otherwise the construct
stays host-native (with its children still visited). -/
def logicalTransform (hasAnd hasOr hasNot : Bool) : BExpr → GExpr
  | .const v => .const v
  | .call f => .call f
  | .andE values =>
    let vs := logicalTransformList hasAnd hasOr hasNot values
    if hasAnd then
      match vs with
      | [] => .andE []
      | x :: rest => .ovAnd x (rest.map GThunk.thunk)
    else .andE vs
  | .orE values =>
    let vs := logicalTransformList hasAnd hasOr hasNot values
    if hasOr then
      match vs with
      | [] => .orE []
      | x :: rest => .ovOr x (rest.map GThunk.thunk)
    else .orE vs
  | .notE e =>
    if hasNot then .ovNot (logicalTransform hasAnd hasOr hasNot e)
    else .notE (logicalTransform hasAnd hasOr hasNot e)

def logicalTransformList (hasAnd hasOr hasNot : Bool) : List BExpr → List GExpr
  | [] => []
  | e :: es =>
    logicalTransform hasAnd hasOr hasNot e ::
      logicalTransformList hasAnd hasOr hasNot es
end

mutual
/-- Instrumented evaluation of a rewritten expression: the value plus the list
of function names called, in order.  `ovAnd`/`ovOr` implement
`py_defaults.and_`/`or_`: the first operand is an already-computed value; the
thunks are forced left to right only while the outcome is undecided, and the
result is the boolean constant `True`/`False`. -/
def evalG (env : String → PyV) : GExpr → PyV × List String
  | .const v => (v, [])
  | .call f => (env f, [f])
  | .andE vs => evalHostAnd env vs
  | .orE vs => evalHostOr env vs
  | .notE e =>
    let r := evalG env e
    (.bool (!r.1.truthy), r.2)
  | .ovAnd x ops =>
    let rx := evalG env x
    if rx.1.truthy then
      let ro := evalAndOps env ops
      (ro.1, rx.2 ++ ro.2)
    else (.bool false, rx.2)
  | .ovOr x ops =>
    let rx := evalG env x
    if rx.1.truthy then (.bool true, rx.2)
    else
      let ro := evalOrOps env ops
      (ro.1, rx.2 ++ ro.2)
  | .ovNot x =>
    let r := evalG env x
    (.bool (!r.1.truthy), r.2)

/-- The loop of `py_defaults.and_`: force each thunk in order; the first falsy
result returns `False` at once; if all are truthy return `True`. -/
def evalAndOps (env : String → PyV) : List GThunk → PyV × List String
  | [] => (.bool true, [])
  | .thunk b :: rest =>
    let r := evalG env b
    if !r.1.truthy then (.bool false, r.2)
    else
      let rr := evalAndOps env rest
      (rr.1, r.2 ++ rr.2)

/-- The loop of `py_defaults.or_`: force each thunk in order; the first truthy
result returns `True` at once; if all are falsy return `False`. -/
def evalOrOps (env : String → PyV) : List GThunk → PyV × List String
  | [] => (.bool false, [])
  | .thunk b :: rest =>
    let r := evalG env b
    if r.1.truthy then (.bool true, r.2)
    else
      let rr := evalOrOps env rest
      (rr.1, r.2 ++ rr.2)

/-- A host-native Python `and` chain: evaluate left to right, return the first
falsy operand's value, or the last operand's value. -/
def evalHostAnd (env : String → PyV) : List GExpr → PyV × List String
  | [] => (.bool true, [])
  | [e] => evalG env e
  | e :: rest =>
    let r := evalG env e
    if r.1.truthy then
      let rr := evalHostAnd env rest
      (rr.1, r.2 ++ rr.2)
    else r

/-- A host-native Python `or` chain: evaluate left to right, return the first
truthy operand's value, or the last operand's value. -/
def evalHostOr (env : String → PyV) : List GExpr → PyV × List String
  | [] => (.bool false, [])
  | [e] => evalG env e
  | e :: rest =>
    let r := evalG env e
    if r.1.truthy then r
    else
      let rr := evalHostOr env rest
      (rr.1, r.2 ++ rr.2)
end

/-- An environment giving every zero-argument function the return value 0. -/
def envZero : String → PyV := fun _ => .int 0

/-! ### Statement trees and the three tree passes

`transformers/virtualization/{scoping,variables,control_flow}.py` walk gast
statement trees.  We embed the statement shapes the passes dispatch on:
assignments, augmented assignments, `if`/`while`/`for` (each carrying the
`BODY_SCOPE.modified` / `ORELSE_SCOPE.modified` annotations attached by the
preceding activity analysis) and `pass`.  Exceptions escaping a visit
(`NotImplementedError`, `ValueError`, `AttributeError` from `.id` on a
non-`Name` node) are modelled with `Except`. -/

/-- The shape of an assignment/for-loop target (gast node kinds): a `Name`, a
`Tuple` or `List` of sub-targets, or some other node such as an attribute
access, which has no `.id`. -/
inductive Targ where
  | name (id : String)
  | tup (elts : List Targ)
  | lst (elts : List Targ)
  | attr (obj : String) (field : String)

/-- Exceptions escaping the rewrite passes. -/
inductive PassError where
  | notImplementedAugAssign
  | valueErrorForTarget
  | attributeError
  | indexError
deriving DecidableEq

/-- Python's `node.id`: succeeds on a `Name`, raises `AttributeError`
otherwise. -/
def Targ.getId : Targ → Except PassError String
  | .name id => .ok id
  | _ => .error .attributeError

/-- Source expressions as the statement passes see them: names, constants and
calls. -/
inductive PExpr where
  | name (id : String)
  | const (n : Int)
  | call (func : PExpr) (args : List PExpr)

mutual
/-- Source statements the passes dispatch on.  `if`/`while`/`for` carry the
`modified` sets of their body/orelse scope annotations. -/
inductive PStmt where
  | assign (target : String) (value : PExpr)
  | augAssign (target : String) (value : PExpr)
  | ifS (test : PExpr) (body : PBlock) (orelse : PBlock)
        (bodyMod : List String) (orelseMod : List String)
  | whileS (test : PExpr) (body : PBlock) (orelse : PBlock)
        (bodyMod : List String) (orelseMod : List String)
  | forS (target : Targ) (iter : PExpr) (body : PBlock) (orelse : PBlock)
        (bodyMod : List String) (orelseMod : List String)
  | passS

/-- A statement list (kept mutual with `PStmt` for clean induction). -/
inductive PBlock where
  | nil
  | cons (s : PStmt) (rest : PBlock)
end

/-- Modelled from the spec: `core/naming.py` is not under `src/`; §4.2 allows
a monotonically-increasing-suffix strategy for `new_symbol(base, reserved)`,
so fresh names are `base ++ "_" ++ counter` with the session counter threaded
through the pass. -/
def newSymbol (base : String) (k : Nat) : String :=
  base ++ "_" ++ toString k

/-- `ScopeTransformer._check_local` for a `Store`-context name: skipped for
names declared global/nonlocal, otherwise the name becomes local. -/
def checkStore (sc : Scope) (n : String) : Scope :=
  if sc.is_global n || sc.is_nonlocal n then sc else sc.add_local n

/-- `ScopeTransformer._check_local` for a `Load`-context name: skipped for
global/nonlocal names, a no-op for locals, otherwise the name becomes free. -/
def checkLoad (sc : Scope) (n : String) : Scope :=
  if sc.is_global n || sc.is_nonlocal n then sc
  else if sc.is_local n then sc else sc.add_free n

/-- One step of `visit_For`'s target classification in the Scope pass:
`_check_local(node.target, target.id)` — `.id` may raise. -/
def scopeForTargetStep (sc : Scope) (t : Targ) : Except PassError Scope :=
  (Targ.getId t).map (checkStore sc)

/-- The list comprehension `[target.id for target in targets]`: collects the
`.id` of every target, raising `AttributeError` at the first non-`Name`. -/
def mapGetIds : List Targ → Except PassError (List String)
  | [] => .ok []
  | t :: ts => do
    let id ← t.getId
    let ids ← mapGetIds ts
    .ok (id :: ids)

mutual
/-- `ScopeTransformer` on an expression: every `Name` it reaches is a load. -/
def scopeVisitExpr (sc : Scope) : PExpr → Scope
  | .name id => checkLoad sc id
  | .const _ => sc
  | .call f args => scopeVisitExprList (scopeVisitExpr sc f) args

def scopeVisitExprList (sc : Scope) : List PExpr → Scope
  | [] => sc
  | e :: es => scopeVisitExprList (scopeVisitExpr sc e) es
end

/-- `generic_visit` applied to an expression node visits only its children:
the root itself (e.g. the iterator `Name` of `node.iter =
self.generic_visit(node.iter)` in `visit_For`) is not load-checked. -/
def scopeChildrenExpr (sc : Scope) : PExpr → Scope
  | .name _ => sc
  | .const _ => sc
  | .call f args => scopeVisitExprList (scopeVisitExpr sc f) args

mutual
/-- `ScopeTransformer` on a statement: assignment targets are stores, loads
are frees; `visit_For` classifies the target name(s) via `.id` (raising
`AttributeError` on a non-`Name`), then visits the iterator's children and the
two blocks. -/
def scopeVisitStmt (sc : Scope) : PStmt → Except PassError Scope
  | .assign t v => .ok (scopeVisitExpr (checkStore sc t) v)
  | .augAssign t v => .ok (scopeVisitExpr (checkStore sc t) v)
  | .ifS test body orelse _ _ => do
    let sc2 ← scopeVisitBlock (scopeVisitExpr sc test) body
    scopeVisitBlock sc2 orelse
  | .whileS test body orelse _ _ => do
    let sc2 ← scopeVisitBlock (scopeVisitExpr sc test) body
    scopeVisitBlock sc2 orelse
  | .forS target iter body orelse _ _ => do
    let sc1 ←
      match target with
      | .tup elts => elts.foldlM scopeForTargetStep sc
      | .lst elts => elts.foldlM scopeForTargetStep sc
      | t => scopeForTargetStep sc t
    let sc3 ← scopeVisitBlock (scopeChildrenExpr sc1 iter) body
    scopeVisitBlock sc3 orelse
  | .passS => .ok sc

def scopeVisitBlock (sc : Scope) : PBlock → Except PassError Scope
  | .nil => .ok sc
  | .cons s rest => do
    let sc1 ← scopeVisitStmt sc s
    scopeVisitBlock sc1 rest
end

/-- The hooks the active overload module exposes, as probed by `hasattr` in
`ControlFlowTransformer`. -/
structure CFOverload where
  hasIf : Bool
  hasWhile : Bool
  hasFor : Bool

/-- Statements of the tree produced by the Control-Flow pass: the host-native
forms (kept when the hook is absent) plus the generated zero-argument function
definitions, `return` statements, `target = overload.init("id")` bindings and
the `overload.<kind>_stmt(...)` calls. -/
inductive CStmt where
  | assignC (target : String) (value : PExpr)
  | augAssignC (target : String) (value : PExpr)
  | ifC (test : PExpr) (body : List CStmt) (orelse : List CStmt)
        (bodyMod : List String) (orelseMod : List String)
  | whileC (test : PExpr) (body : List CStmt) (orelse : List CStmt)
        (bodyMod : List String) (orelseMod : List String)
  | forC (target : Targ) (iter : PExpr) (body : List CStmt) (orelse : List CStmt)
        (bodyMod : List String) (orelseMod : List String)
  | passC
  | funcDef0 (fname : String) (body : List CStmt)
  | retC (e : PExpr)
  | ovInitC (target : String)
  | ovStmtCall (hook : String) (fnames : List String) (writes : List String)
  | ovForCall (target : Targ) (iter : PExpr) (bodyName : String)
        (orelseName : String) (writes : List String)

/-- `node.orelse if node.orelse else gast.Pass()`: an empty (visited) orelse
block becomes a single `pass`. -/
def orelsePad : List CStmt → List CStmt
  | [] => [.passC]
  | l => l

mutual
/-- `ControlFlowTransformer.visit_If/While/For`: read the `modified`
annotations, visit the children, then — only when the overload has the hook —
replace the construct by zero-argument test/body/orelse functions plus
`overload.<kind>_stmt(..., (local_writes,))`; a `for` additionally pre-binds
each target name via `overload.init` (`.id` on a non-`Name` element raises
`AttributeError`; a target that is no `Name`/`Tuple`/`List` raises
`ValueError`). -/
def cfVisitStmt (ov : CFOverload) (k : Nat) : PStmt → Except PassError (List CStmt × Nat)
  | .assign t v => .ok ([.assignC t v], k)
  | .augAssign t v => .ok ([.augAssignC t v], k)
  | .passS => .ok ([.passC], k)
  | .ifS test body orelse bm om => do
    let rb ← cfVisitBlock ov k body
    let ro ← cfVisitBlock ov rb.2 orelse
    if ov.hasIf then
      let tn := newSymbol "if_test" ro.2
      let bn := newSymbol "if_body" (ro.2 + 1)
      let en := newSymbol "if_orelse" (ro.2 + 2)
      .ok ([.funcDef0 tn [.retC test], .funcDef0 bn rb.1,
            .funcDef0 en (orelsePad ro.1),
            .ovStmtCall "if_stmt" [tn, bn, en] (bm.union om)], ro.2 + 3)
    else
      .ok ([.ifC test rb.1 ro.1 bm om], ro.2)
  | .whileS test body orelse bm om => do
    let rb ← cfVisitBlock ov k body
    let ro ← cfVisitBlock ov rb.2 orelse
    if ov.hasWhile then
      let tn := newSymbol "while_test" ro.2
      let bn := newSymbol "while_body" (ro.2 + 1)
      let en := newSymbol "while_orelse" (ro.2 + 2)
      .ok ([.funcDef0 tn [.retC test], .funcDef0 bn rb.1,
            .funcDef0 en (orelsePad ro.1),
            .ovStmtCall "while_stmt" [tn, bn, en] (bm.union om)], ro.2 + 3)
    else
      .ok ([.whileC test rb.1 ro.1 bm om], ro.2)
  | .forS target iter body orelse bm om => do
    let rb ← cfVisitBlock ov k body
    let ro ← cfVisitBlock ov rb.2 orelse
    if ov.hasFor then
      let targets ←
        match target with
        | .tup elts => Except.ok elts
        | .lst elts => Except.ok elts
        | .name id => Except.ok [Targ.name id]
        | .attr _ _ => Except.error PassError.valueErrorForTarget
      let ids ← mapGetIds targets
      let bn := newSymbol "for_body" ro.2
      let en := newSymbol "for_orelse" (ro.2 + 1)
      .ok (ids.map CStmt.ovInitC ++
            [.funcDef0 bn rb.1, .funcDef0 en (orelsePad ro.1),
             .ovForCall target iter bn en (bm.union om)], ro.2 + 2)
    else
      .ok ([.forC target iter rb.1 ro.1 bm om], ro.2)

def cfVisitBlock (ov : CFOverload) (k : Nat) : PBlock → Except PassError (List CStmt × Nat)
  | .nil => .ok ([], k)
  | .cons s rest => do
    let r1 ← cfVisitStmt ov k s
    let r2 ← cfVisitBlock ov r1.2 rest
    .ok (r1.1 ++ r2.1, r2.2)
end

mutual
/-- The host-native image of a source statement in the Control-Flow pass's
output type (what an untransformed construct looks like). -/
def toC : PStmt → CStmt
  | .assign t v => .assignC t v
  | .augAssign t v => .augAssignC t v
  | .ifS test body orelse bm om => .ifC test (toCBlock body) (toCBlock orelse) bm om
  | .whileS test body orelse bm om => .whileC test (toCBlock body) (toCBlock orelse) bm om
  | .forS target iter body orelse bm om =>
    .forC target iter (toCBlock body) (toCBlock orelse) bm om
  | .passS => .passC

def toCBlock : PBlock → List CStmt
  | .nil => []
  | .cons s rest => toC s :: toCBlock rest
end

/-- Expressions of the tree produced by the Variables pass: host forms plus
`overload.read(name)` and the `n_target[i]` subscripts of rewritten for-loop
target unpacking. -/
inductive VExpr where
  | nameV (id : String)
  | constV (n : Int)
  | callV (func : VExpr) (args : List VExpr)
  | ovReadV (id : String)
  | subscriptV (obj : String) (idx : Nat)

/-- Statements of the tree produced by the Variables pass: host forms plus
`overload.assign(name, value)` and the rewritten for-loop. -/
inductive VStmt where
  | assignV (target : String) (value : VExpr)
  | ifV (test : VExpr) (body : List VStmt) (orelse : List VStmt)
        (bodyMod : List String) (orelseMod : List String)
  | whileV (test : VExpr) (body : List VStmt) (orelse : List VStmt)
        (bodyMod : List String) (orelseMod : List String)
  | forV (freshTarget : String) (iter : VExpr) (body : List VStmt)
        (orelse : List VStmt)
  | passV
  | ovAssignV (target : String) (value : VExpr)

mutual
/-- `VariableTransformer.visit_Name`: when the overload has a `read` hook and
the current scope virtualizes the name, a load becomes
`overload.read(name)`. -/
def varVisitExpr (rd : Bool) (sc : Scope) : PExpr → VExpr
  | .name id => if rd && sc.should_virtualize id then .ovReadV id else .nameV id
  | .const n => .constV n
  | .call f args => .callV (varVisitExpr rd sc f) (varVisitExprList rd sc args)

def varVisitExprList (rd : Bool) (sc : Scope) : List PExpr → List VExpr
  | [] => []
  | e :: es => varVisitExpr rd sc e :: varVisitExprList rd sc es
end

mutual
/-- `VariableTransformer` on statements: a store of a virtualized name becomes
`overload.assign(name, value)`; `visit_AugAssign` raises
`NotImplementedError('AugAssign not yet implemented.')`; `visit_For` renames
the loop variable to a fresh `n_target` (the reserved set is built from each
target's `.id`, raising `AttributeError` on a non-`Name` element; another
target shape raises `ValueError`) and re-binds each original target via
`overload.assign`. -/
def varVisitStmt (rd : Bool) (sc : Scope) (k : Nat) :
    PStmt → Except PassError (List VStmt × Nat)
  | .assign t v =>
    let v2 := varVisitExpr rd sc v
    if sc.should_virtualize t then .ok ([.ovAssignV t v2], k)
    else .ok ([.assignV t v2], k)
  | .augAssign _ _ => .error .notImplementedAugAssign
  | .ifS test body orelse bm om => do
    let t2 := varVisitExpr rd sc test
    let rb ← varVisitBlock rd sc k body
    let ro ← varVisitBlock rd sc rb.2 orelse
    .ok ([.ifV t2 rb.1 ro.1 bm om], ro.2)
  | .whileS test body orelse bm om => do
    let t2 := varVisitExpr rd sc test
    let rb ← varVisitBlock rd sc k body
    let ro ← varVisitBlock rd sc rb.2 orelse
    .ok ([.whileV t2 rb.1 ro.1 bm om], ro.2)
  | .forS target iter body orelse _ _ => do
    let it2 := varVisitExpr rd sc iter
    let rb ← varVisitBlock rd sc k body
    let ro ← varVisitBlock rd sc rb.2 orelse
    let targets ←
      match target with
      | .tup elts => Except.ok elts
      | .lst elts => Except.ok elts
      | .name id => Except.ok [Targ.name id]
      | .attr _ _ => Except.error PassError.valueErrorForTarget
    let ids ← mapGetIds targets
    let n := newSymbol "n_target" ro.2
    let assigns ←
      if 1 < targets.length then
        Except.ok (ids.enum.map (fun p => VStmt.ovAssignV p.2 (.subscriptV n p.1)))
      else
        match targets, ids with
        | _ :: _, id0 :: _ => Except.ok [VStmt.ovAssignV id0 (.nameV n)]
        | _, _ => Except.error PassError.indexError
    .ok ([.forV n it2 (assigns ++ rb.1) ro.1], ro.2 + 1)
  | .passS => .ok ([.passV], k)

def varVisitBlock (rd : Bool) (sc : Scope) (k : Nat) :
    PBlock → Except PassError (List VStmt × Nat)
  | .nil => .ok ([], k)
  | .cons s rest => do
    let r1 ← varVisitStmt rd sc k s
    let r2 ← varVisitBlock rd sc r1.2 rest
    .ok (r1.1 ++ r2.1, r2.2)
end

/-- Whether a for-loop target has one of the supported shapes: a plain name,
or a tuple/list all of whose elements are names. -/
def Targ.supported : Targ → Bool
  | .name _ => true
  | .tup elts => elts.all (fun t => match t with | .name _ => true | _ => false)
  | .lst elts => elts.all (fun t => match t with | .name _ => true | _ => false)
  | .attr _ _ => false

/-- Whether a for-loop target is accepted by the Variables pass without
raising: a plain name, or a *non-empty* tuple/list of names — the pass's
single-target branch indexes `targets[0]` unconditionally, so an empty
tuple/list target raises `IndexError`. -/
def Targ.varSupported : Targ → Bool
  | .name _ => true
  | .tup elts =>
    !elts.isEmpty && elts.all (fun t => match t with | .name _ => true | _ => false)
  | .lst elts =>
    !elts.isEmpty && elts.all (fun t => match t with | .name _ => true | _ => false)
  | .attr _ _ => false

mutual
/-- Every for-loop target in the statement is of a supported shape. -/
def goodForsStmt : PStmt → Bool
  | .assign _ _ => true
  | .augAssign _ _ => true
  | .ifS _ body orelse _ _ => goodForsBlock body && goodForsBlock orelse
  | .whileS _ body orelse _ _ => goodForsBlock body && goodForsBlock orelse
  | .forS target _ body orelse _ _ =>
    target.supported && goodForsBlock body && goodForsBlock orelse
  | .passS => true

def goodForsBlock : PBlock → Bool
  | .nil => true
  | .cons s rest => goodForsStmt s && goodForsBlock rest
end

mutual
/-- Every for-loop target in the statement is accepted by the Variables pass
(`Targ.varSupported`: supported shape and, for sequences, non-empty). -/
def goodVarForsStmt : PStmt → Bool
  | .assign _ _ => true
  | .augAssign _ _ => true
  | .ifS _ body orelse _ _ => goodVarForsBlock body && goodVarForsBlock orelse
  | .whileS _ body orelse _ _ => goodVarForsBlock body && goodVarForsBlock orelse
  | .forS target _ body orelse _ _ =>
    target.varSupported && goodVarForsBlock body && goodVarForsBlock orelse
  | .passS => true

def goodVarForsBlock : PBlock → Bool
  | .nil => true
  | .cons s rest => goodVarForsStmt s && goodVarForsBlock rest
end

mutual
/-- The statement contains an augmented assignment somewhere. -/
def containsAugStmt : PStmt → Bool
  | .assign _ _ => false
  | .augAssign _ _ => true
  | .ifS _ body orelse _ _ => containsAugBlock body || containsAugBlock orelse
  | .whileS _ body orelse _ _ => containsAugBlock body || containsAugBlock orelse
  | .forS _ _ body orelse _ _ => containsAugBlock body || containsAugBlock orelse
  | .passS => false

def containsAugBlock : PBlock → Bool
  | .nil => false
  | .cons s rest => containsAugStmt s || containsAugBlock rest
end

/-! ### Closure reattachment (`api/conversion.py`, `_attach_closure`)

Closure cells are opaque objects identified here by `Nat` ids.  A Python
`dict` built from a zip keeps the *later* entry for a duplicated key, and
`d1.update(d2)` lets `d2`'s entries shadow `d1`'s; both are modelled by a
plain pair list searched back-to-front. -/

/-- Lookup in a Python `dict` represented as its insertion-ordered pair list:
later entries shadow earlier ones. -/
def pyDictGet : List (String × Nat) → String → Option Nat
  | [], _ => none
  | (k2, v) :: rest, k =>
    match pyDictGet rest k with
    | some r => some r
    | none => if k = k2 then some v else none

/-- The comprehension `[d[cell] for cell in names]`: `none` models the
`KeyError` when some name is missing. -/
def lookupCells (d : List (String × Nat)) : List String → Option (List Nat)
  | [] => some []
  | n :: ns =>
    match pyDictGet d n, lookupCells d ns with
    | some v, some vs => some (v :: vs)
    | _, _ => none

/-- `conversion._attach_closure`: build `gen_dict` from the generated
function's free-variable names and cells, `original_dict` likewise from the
original function, apply `gen_dict.update(original_dict)` (so original cells
shadow generated ones), and collect one cell per generated free variable, in
the generated code object's free-variable order. -/
def attach_closure (genFv : List String) (genCl : List Nat)
    (origFv : List String) (origCl : List Nat) : Option (List Nat) :=
  let gen_dict := genFv.zip genCl
  let original_dict := origFv.zip origCl
  lookupCells (gen_dict ++ original_dict) genFv

/-! ### Theorems -/

theorem length_setValCells {α : Type} (v : Val α) (cs : List (VarCell α)) (n : Nat) :
    (setValCells v cs n).length = cs.length := by
  induction cs generalizing n with
  | nil => rfl
  | cons c cs ih =>
    cases n with
    | zero => rfl
    | succ n => simp [setValCells, ih]

theorem get?_setValCells_ne {α : Type} (v : Val α) (cs : List (VarCell α)) {m n : Nat}
    (h : m ≠ n) : (setValCells v cs n).get? m = cs.get? m := by
  induction cs generalizing m n with
  | nil => rfl
  | cons c cs ih =>
    cases n with
    | zero =>
      cases m with
      | zero => exact absurd rfl h
      | succ m => rfl
    | succ n =>
      cases m with
      | zero => rfl
      | succ m => exact ih (fun hh => h (by rw [hh]))

theorem get?_setValCells_self {α : Type} (v : Val α) (cs : List (VarCell α)) (n : Nat) :
    (setValCells v cs n).get? n = (cs.get? n).map (fun c => { c with val := v }) := by
  induction cs generalizing n with
  | nil => rfl
  | cons c cs ih =>
    cases n with
    | zero => rfl
    | succ n => exact ih n

theorem Store.length_setVal {α : Type} (s : Store α) (h : Nat) (v : Val α) :
    (s.setVal h v).cells.length = s.cells.length :=
  length_setValCells v s.cells h

theorem Store.getVal?_setVal_ne {α : Type} (s : Store α) {h h2 : Nat} (v : Val α)
    (hne : h ≠ h2) : (s.setVal h2 v).getVal? h = s.getVal? h := by
  simp only [Store.getVal?, Store.setVal]
  rw [get?_setValCells_ne v s.cells hne]

theorem Store.getValD_setVal_ne {α : Type} (s : Store α) {h h2 : Nat} (v : Val α)
    (hne : h ≠ h2) : (s.setVal h2 v).getValD h = s.getValD h := by
  simp only [Store.getValD]
  rw [Store.getVal?_setVal_ne s v hne]

theorem Store.getValD_setVal_self {α : Type} (s : Store α) {h : Nat} (v : Val α)
    (hlt : h < s.cells.length) : (s.setVal h v).getValD h = v := by
  simp only [Store.getValD, Store.getVal?, Store.setVal]
  rw [get?_setValCells_self]
  rcases List.get?_eq_get hlt with hg
  rw [hg]
  rfl

theorem length_runOp_le {α : Type} (s : Store α) (op : StoreOp α) :
    s.cells.length ≤ (runOp s op).cells.length := by
  cases op with
  | opInit name => simp [runOp, py_defaults.init]
  | opAssign h v =>
    simp only [runOp, py_defaults.assign]
    rw [Store.length_setVal]

theorem length_runOps_le {α : Type} (ops : List (StoreOp α)) (s : Store α) :
    s.cells.length ≤ (runOps s ops).cells.length := by
  induction ops generalizing s with
  | nil => exact Nat.le_refl _
  | cons op ops ih =>
    exact Nat.le_trans (length_runOp_le s op) (ih (runOp s op))

theorem get?_runOps_preserved {α : Type} (ops : List (StoreOp α)) (s : Store α) (h : Nat)
    (hlt : h < s.cells.length) (hne : ∀ op ∈ ops, op.isAssignTo h = false) :
    (runOps s ops).cells.get? h = s.cells.get? h := by
  induction ops generalizing s with
  | nil => rfl
  | cons op ops ih =>
    have hstep : (runOp s op).cells.get? h = s.cells.get? h := by
      cases op with
      | opInit name =>
        simp only [runOp, py_defaults.init]
        exact List.get?_append hlt
      | opAssign h2 v =>
        have : (h2 == h) = false := hne _ (List.mem_cons_self _ _)
        simp only [runOp, py_defaults.assign, Store.setVal]
        exact get?_setValCells_ne v s.cells (fun hh => by simp [hh] at this)
    calc (runOps s (op :: ops)).cells.get? h
        = (runOps (runOp s op) ops).cells.get? h := rfl
      _ = (runOp s op).cells.get? h :=
          ih (runOp s op) (Nat.lt_of_lt_of_le hlt (length_runOp_le s op))
            (fun o ho => hne o (List.mem_cons_of_mem _ ho))
      _ = s.cells.get? h := hstep

theorem zip_map_self {α β : Type} (l : List α) (g : α → β) :
    l.zip (l.map g) = l.map (fun x => (x, g x)) := by
  induction l with
  | nil => rfl
  | cons x l ih => simp [ih]

theorem foldl_setVal_not_mem {α : Type} (ks : List Nat) (g : Nat → Val α) (st : Store α)
    (h : Nat) (hh : h ∉ ks) :
    ((ks.map (fun k => (k, g k))).foldl (fun t p => t.setVal p.1 p.2) st).getValD h
      = st.getValD h := by
  induction ks generalizing st with
  | nil => rfl
  | cons k ks ih =>
    simp only [List.map_cons, List.foldl_cons]
    rw [ih _ (fun hmem => hh (List.mem_cons_of_mem _ hmem))]
    exact st.getValD_setVal_ne _ (fun he => hh (he ▸ List.mem_cons_self _ _))

theorem foldl_setVal_mem {α : Type} (ks : List Nat) (g : Nat → Val α) (st : Store α)
    (h : Nat) (hmem : h ∈ ks) (hlt : h < st.cells.length) :
    ((ks.map (fun k => (k, g k))).foldl (fun t p => t.setVal p.1 p.2) st).getValD h
      = g h := by
  induction ks generalizing st with
  | nil => cases hmem
  | cons k ks ih =>
    simp only [List.map_cons, List.foldl_cons]
    by_cases hks : h ∈ ks
    · exact ih _ hks (by rw [Store.length_setVal]; exact hlt)
    · have hk : h = k := by
        rcases List.mem_cons.mp hmem with h1 | h1
        · exact h1
        · exact absurd h1 hks
      subst hk
      rw [foldl_setVal_not_mem ks g _ h hks]
      exact st.getValD_setVal_self _ hlt

theorem mem_insertName {x v : String} {l : List String} :
    x ∈ insertName v l ↔ x = v ∨ x ∈ l := by
  unfold insertName
  by_cases h : v ∈ l
  · simp only [if_pos h]
    constructor
    · exact Or.inr
    · rintro (rfl | hx)
      · exact h
      · exact hx
  · simp [if_neg h]

theorem mem_removeName {x v : String} {l : List String} :
    x ∈ removeName v l ↔ x ∈ l ∧ x ≠ v := by
  simp [removeName]

theorem should_virtualize_mk (parent : Option Scope) (ls fs ns gs : List String) (v : String) :
    Scope.should_virtualize (.mk parent ls fs ns gs) v =
      (if v ∈ ls then true
      else if v ∈ ns || v ∈ fs then
        (match parent with | some p => p.should_virtualize v | none => false)
      else false) := by
  rw [Scope.should_virtualize.eq_def]

theorem should_virtualize_iff (s : Scope) (n : String) :
    s.should_virtualize n = true ↔
      (n ∈ s.locals ∨ ((n ∈ s.nonlocals ∨ n ∈ s.free) ∧
        ∃ p, s.parent = some p ∧ p.should_virtualize n = true)) := by
  cases s with
  | mk parent ls fs ns gs =>
    simp only [Scope.locals, Scope.free, Scope.nonlocals, Scope.parent, should_virtualize_mk]
    by_cases h1 : n ∈ ls
    · simp [h1]
    · by_cases h2 : n ∈ ns
      · cases parent <;> simp [h1, h2]
      · by_cases h3 : n ∈ fs
        · cases parent <;> simp [h1, h2, h3]
        · simp [h1, h2, h3]

/-- C1 (amended): `should_virtualize(n)` is true iff `n` is local, or `n` is
nonlocal/free and the parent scope exists and virtualizes it.  Consequently it
is false for a name in none of `locals`, `nonlocals`, `free` (in particular a
name recorded only in `globals`), and false for a non-local name none of whose
parents virtualize it.  (The original claim's stronger clause — false
*whenever* `n ∈ globals` — fails when the name is also in `locals`; see the
counterexample.) -/
theorem C1_should_virtualize_spec (s : Scope) (n : String) :
    (s.should_virtualize n = true ↔
      (n ∈ s.locals ∨ ((n ∈ s.nonlocals ∨ n ∈ s.free) ∧
        ∃ p, s.parent = some p ∧ p.should_virtualize n = true)))
    ∧ (n ∉ s.locals → n ∉ s.nonlocals → n ∉ s.free → s.should_virtualize n = false)
    ∧ (n ∉ s.locals → (∀ p, s.parent = some p → p.should_virtualize n = false) →
        s.should_virtualize n = false) := by
  refine ⟨should_virtualize_iff s n, ?_, ?_⟩
  · intro h1 h2 h3
    cases hb : s.should_virtualize n with
    | false => rfl
    | true =>
      rcases (should_virtualize_iff s n).mp hb with h | ⟨hnf, _⟩
      · exact absurd h h1
      · rcases hnf with h | h
        · exact absurd h h2
        · exact absurd h h3
  · intro h1 hp
    cases hb : s.should_virtualize n with
    | false => rfl
    | true =>
      rcases (should_virtualize_iff s n).mp hb with h | ⟨_, p, hps, hpv⟩
      · exact absurd h h1
      · rw [hp p hps] at hpv
        exact absurd hpv (by simp)

/-- C1 counterexample: a name added to `globals` and then to `locals` sits in
both sets, and `should_virtualize` returns true for it even though it is in
`globals`, refuting the claim's clause that the result is false whenever the
name is in `globals`. -/
theorem C1_counterexample :
    ("x" ∈ ((Scope.empty.add_global "x").add_local "x").globals) ∧
    ((Scope.empty.add_global "x").add_local "x").should_virtualize "x" = true := by
  decide

/-- C6 (amended): `add_local` puts the name in `locals`, removes it from
`free`, and preserves disjointness of `locals` and `free`; `add_nonlocal` and
`add_global` remove the name from `locals` and preserve disjointness;
`add_free` leaves `locals` untouched and adds the name to `free`, so it
preserves disjointness only when the name is not already local.  (The original
claim's clause that adding a name to `free` removes it from `locals` fails;
see the counterexample.) -/
theorem C6_scope_ops_disjoint (s : Scope) (v : String)
    (hdisj : ∀ x, x ∈ s.locals → x ∉ s.free) :
    (v ∈ (s.add_local v).locals ∧ v ∉ (s.add_local v).free
      ∧ ∀ x, x ∈ (s.add_local v).locals → x ∉ (s.add_local v).free)
    ∧ (v ∉ (s.add_nonlocal v).locals
      ∧ ∀ x, x ∈ (s.add_nonlocal v).locals → x ∉ (s.add_nonlocal v).free)
    ∧ (v ∉ (s.add_global v).locals
      ∧ ∀ x, x ∈ (s.add_global v).locals → x ∉ (s.add_global v).free)
    ∧ ((s.add_free v).locals = s.locals ∧ v ∈ (s.add_free v).free
      ∧ (v ∉ s.locals → ∀ x, x ∈ (s.add_free v).locals → x ∉ (s.add_free v).free)) := by
  cases s with
  | mk parent ls fs ns gs =>
    simp only [Scope.add_local, Scope.add_nonlocal, Scope.add_global, Scope.add_free,
      Scope.locals, Scope.free] at *
    refine ⟨⟨?_, ?_, ?_⟩, ⟨?_, ?_⟩, ⟨?_, ?_⟩, by trivial, ?_, ?_⟩
    · exact mem_insertName.mpr (Or.inl rfl)
    · intro hmem
      exact (mem_removeName.mp hmem).2 rfl
    · intro x hx hmem
      rcases mem_insertName.mp hx with rfl | hxl
      · exact (mem_removeName.mp hmem).2 rfl
      · exact hdisj x hxl (mem_removeName.mp hmem).1
    · intro hmem
      exact (mem_removeName.mp hmem).2 rfl
    · intro x hx hmem
      exact hdisj x (mem_removeName.mp hx).1 hmem
    · intro hmem
      exact (mem_removeName.mp hmem).2 rfl
    · intro x hx hmem
      exact hdisj x (mem_removeName.mp hx).1 hmem
    · exact mem_insertName.mpr (Or.inl rfl)
    · intro hv x hx hmem
      rcases mem_insertName.mp hmem with rfl | hxf
      · exact hv hx
      · exact hdisj x hx hxf

/-- C6 witness: the amended statement instantiated at the empty scope and the
name `x` (the empty scope trivially has disjoint `locals` and `free`). -/
theorem C6_witness : "x" ∈ ((Scope.empty).add_local "x").locals :=
  (C6_scope_ops_disjoint Scope.empty "x"
    (fun x hx => absurd hx (List.not_mem_nil x))).1.1

/-- C6 counterexample: `add_free` on a name already in `locals` leaves it in
`locals` while also adding it to `free`, refuting the claim's clause that
adding a name to `free` removes it from `locals` (and breaking the
disjointness invariant). -/
theorem C6_counterexample :
    "x" ∈ ((Scope.empty.add_local "x").add_free "x").locals ∧
    "x" ∈ ((Scope.empty.add_local "x").add_free "x").free := by
  decide

/-- C2: a handle produced by `init(name)` and never the target of a later
`assign` reads as an unbound-storage error whose message contains the declared
name; once `assign`ed a plain value `v` (neither an `Undefined` marker nor a
`Variable`), `read` returns exactly `v` and `assign` returns the very handle
it was given. -/
theorem C2_default_storage {α : Type} (s0 : Store α) (name : String)
    (ops : List (StoreOp α)) (v : Val α) (fuel : Nat)
    (hops : ∀ op ∈ ops, op.isAssignTo (py_defaults.init s0 name).2 = false)
    (hfuel : 0 < fuel)
    (hvu : ∀ nm, v ≠ .undefined nm) (hvr : ∀ h2, v ≠ .varref h2) :
    (py_defaults.read (runOps (py_defaults.init s0 name).1 ops) fuel
        (py_defaults.init s0 name).2 = .error (.unboundLocal (unboundMsg name))
      ∧ (∃ p q, unboundMsg name = p ++ name ++ q))
    ∧ (py_defaults.read
        (py_defaults.assign (runOps (py_defaults.init s0 name).1 ops)
          (py_defaults.init s0 name).2 v).1 fuel (py_defaults.init s0 name).2 = .ok v
      ∧ (py_defaults.assign (runOps (py_defaults.init s0 name).1 ops)
          (py_defaults.init s0 name).2 v).2 = (py_defaults.init s0 name).2) := by
  obtain ⟨f, rfl⟩ : ∃ f, fuel = f + 1 := ⟨fuel - 1, by omega⟩
  set s1 := (py_defaults.init s0 name).1 with hs1
  set h := (py_defaults.init s0 name).2 with hh
  have hlt1 : h < s1.cells.length := by
    simp [hs1, hh, py_defaults.init]
  have hcell1 : s1.cells.get? h = some ⟨.undefined name, name⟩ := by
    simp only [hs1, hh, py_defaults.init]
    exact List.get?_concat_length _ _
  have hcell2 : (runOps s1 ops).cells.get? h = some ⟨.undefined name, name⟩ := by
    rw [get?_runOps_preserved ops s1 h hlt1 hops, hcell1]
  have hgv : (runOps s1 ops).getVal? h = some (.undefined name) := by
    unfold Store.getVal?
    rw [hcell2]
    rfl
  have hlt2 : h < (runOps s1 ops).cells.length :=
    Nat.lt_of_lt_of_le hlt1 (length_runOps_le ops s1)
  refine ⟨⟨?_, "local variable '", "' referenced before assignment", rfl⟩, ?_, rfl⟩
  · simp [py_defaults.read, hgv]
  · obtain ⟨a, rfl⟩ : ∃ a, v = Val.prim a := by
      cases v with
      | undefined nm => exact absurd rfl (hvu nm)
      | varref h2 => exact absurd rfl (hvr h2)
      | prim a => exact ⟨a, rfl⟩
    have hassigned : ((py_defaults.assign (runOps s1 ops) h (Val.prim a)).1).getVal? h
        = some (.prim a) := by
      simp only [py_defaults.assign, Store.getVal?, Store.setVal]
      rw [get?_setValCells_self, hcell2]
      rfl
    simp [py_defaults.read, hassigned]

/-- C2 witness: the specification instantiated at an empty store, the name
`v`, a trace that allocates another variable and assigns to it (but never to
our handle), and the plain value `5`. -/
theorem C2_witness :
    py_defaults.read
      (runOps (py_defaults.init (⟨[]⟩ : Store Int) "v").1
        [.opInit "w", .opAssign 1 (.prim 3)]) 1
      (py_defaults.init (⟨[]⟩ : Store Int) "v").2
      = .error (.unboundLocal (unboundMsg "v")) :=
  (C2_default_storage (⟨[]⟩ : Store Int) "v" [.opInit "w", .opAssign 1 (.prim 3)]
    (.prim 5) 1 (by decide) (by decide)
    (fun nm h => Val.noConfusion h) (fun h2 h => Val.noConfusion h)).1.1

/-- C5: `execute_isolated` restores every handle in `func_freevars` to its
value from immediately before the call, returns as first component the
handles' values as they stood immediately after `func` ran (in the order of
`func_freevars`), and does not restore any handle outside `func_freevars`. -/
theorem C5_execute_isolated_spec {α ρ : Type} (func : Store α → Store α × ρ)
    (fv : List Nat) (s : Store α)
    (hvalid : ∀ h ∈ fv, h < s.cells.length)
    (hgrow : s.cells.length ≤ (func s).1.cells.length) :
    (∀ h ∈ fv, (staging.execute_isolated func fv s).2.getValD h = s.getValD h)
    ∧ (staging.execute_isolated func fv s).1.1 = fv.map (func s).1.getValD
    ∧ (∀ h, h ∉ fv →
        (staging.execute_isolated func fv s).2.getValD h = (func s).1.getValD h) := by
  have key : (staging.execute_isolated func fv s).2
      = (fv.map (fun k => (k, s.getValD k))).foldl
          (fun t p => t.setVal p.1 p.2) (func s).1 := by
    simp only [staging.execute_isolated]
    rw [zip_map_self]
  refine ⟨?_, rfl, ?_⟩
  · intro h hm
    rw [key]
    exact foldl_setVal_mem fv s.getValD (func s).1 h hm
      (Nat.lt_of_lt_of_le (hvalid h hm) hgrow)
  · intro h hm
    rw [key]
    exact foldl_setVal_not_mem fv s.getValD (func s).1 h hm

/-- C5 witness: the specification instantiated at a one-cell store and a thunk
that overwrites that cell — the cell is restored to its pre-call value. -/
theorem C5_witness :
    (staging.execute_isolated branchThunkEx [0] storeEx).2.getValD 0
      = storeEx.getValD 0 :=
  (C5_execute_isolated_spec branchThunkEx [0] storeEx (by decide) (by decide)).1 0
    (List.mem_singleton.mpr rfl)

theorem exists_bool_or {p : PyV} (h : ∃ b, p = .bool b) :
    p = .bool false ∨ p = .bool true := by
  rcases h with ⟨b, hb⟩
  cases b
  · exact Or.inl hb
  · exact Or.inr hb

theorem evalAndOps_bool (env : String → PyV) (ops : List GThunk) :
    ∃ b, (evalAndOps env ops).1 = .bool b := by
  induction ops with
  | nil => exact ⟨true, rfl⟩
  | cons op rest ih =>
    cases op with
    | thunk b =>
      cases htr : (evalG env b).1.truthy <;> simp [evalAndOps, htr]
      exact exists_bool_or ih

theorem evalOrOps_bool (env : String → PyV) (ops : List GThunk) :
    ∃ b, (evalOrOps env ops).1 = .bool b := by
  induction ops with
  | nil => exact ⟨false, rfl⟩
  | cons op rest ih =>
    cases op with
    | thunk b =>
      cases htr : (evalG env b).1.truthy <;> simp [evalOrOps, htr]
      exact exists_bool_or ih

/-- C4: the boolean-chain rewrite keeps the first operand as a value and
defers every later operand behind a generated `lambda:` thunk, and the default
overload's `and_`/`or_` force a thunk only while the earlier operands left the
outcome undecided: in the rewritten `x and y and foo()`, `foo` is called zero
times when `x` or `y` is falsy and exactly once when both are truthy, and
dually for `x or y or foo()`; moreover neither evaluator calls anything beyond
the first operand once that operand decides the outcome. -/
theorem C4_boolop_lazy (x y : PyV) (env : String → PyV) :
    (logicalTransform true true true (.andE [.const x, .const y, .call "foo"])
        = .ovAnd (.const x) [.thunk (.const y), .thunk (.call "foo")])
    ∧ ((evalG env (logicalTransform true true true
          (.andE [.const x, .const y, .call "foo"]))).2.count "foo"
        = if x.truthy && y.truthy then 1 else 0)
    ∧ (logicalTransform true true true (.orE [.const x, .const y, .call "foo"])
        = .ovOr (.const x) [.thunk (.const y), .thunk (.call "foo")])
    ∧ ((evalG env (logicalTransform true true true
          (.orE [.const x, .const y, .call "foo"]))).2.count "foo"
        = if !x.truthy && !y.truthy then 1 else 0)
    ∧ (∀ ops, x.truthy = false → (evalG env (.ovAnd (.const x) ops)).2 = [])
    ∧ (∀ ops, x.truthy = true → (evalG env (.ovOr (.const x) ops)).2 = []) := by
  refine ⟨rfl, ?_, rfl, ?_, ?_, ?_⟩
  · cases hx : x.truthy <;> cases hy : y.truthy <;>
      cases hf : (env "foo").truthy <;>
        simp [logicalTransform, logicalTransformList, evalG, evalAndOps, hx, hy, hf]
  · cases hx : x.truthy <;> cases hy : y.truthy <;>
      cases hf : (env "foo").truthy <;>
        simp [logicalTransform, logicalTransformList, evalG, evalOrOps, hx, hy, hf]
  · intro ops hx
    simp [evalG, hx]
  · intro ops hx
    simp [evalG, hx]

/-- C10: the default `and_`/`or_` return only the boolean constants
`True`/`False`; in particular the rewritten `2 and 3` yields `True` where the
host chain yields `3` — a different value of the same truthiness. -/
theorem C10_bool_constants :
    (∀ (env : String → PyV) (x : GExpr) (ops : List GThunk),
        ∃ b, (evalG env (.ovAnd x ops)).1 = .bool b)
    ∧ (∀ (env : String → PyV) (x : GExpr) (ops : List GThunk),
        ∃ b, (evalG env (.ovOr x ops)).1 = .bool b)
    ∧ evalG envZero (.ovAnd (.const (.int 2)) [.thunk (.const (.int 3))])
        = (.bool true, [])
    ∧ evalG envZero (.andE [.const (.int 2), .const (.int 3)]) = (.int 3, [])
    ∧ (PyV.bool true).truthy = (PyV.int 3).truthy := by
  refine ⟨?_, ?_, ?_, ?_, rfl⟩
  · intro env x ops
    cases hx : (evalG env x).1.truthy <;> simp [evalG, hx]
    exact exists_bool_or (evalAndOps_bool env ops)
  · intro env x ops
    cases hx : (evalG env x).1.truthy <;> simp [evalG, hx]
    exact exists_bool_or (evalOrOps_bool env ops)
  · simp [evalG, evalAndOps, PyV.truthy]
  · simp [evalG, evalHostAnd, PyV.truthy]

mutual
theorem cf_nohooks_stmt (k : Nat) (s : PStmt) :
    cfVisitStmt ⟨false, false, false⟩ k s = .ok ([toC s], k) := by
  cases s with
  | assign t v => rfl
  | augAssign t v => rfl
  | passS => rfl
  | ifS test body orelse bm om =>
    have hb := cf_nohooks_block k body
    have ho := cf_nohooks_block k orelse
    simp [cfVisitStmt, hb, ho, toC, Bind.bind, Except.bind]
  | whileS test body orelse bm om =>
    have hb := cf_nohooks_block k body
    have ho := cf_nohooks_block k orelse
    simp [cfVisitStmt, hb, ho, toC, Bind.bind, Except.bind]
  | forS target iter body orelse bm om =>
    have hb := cf_nohooks_block k body
    have ho := cf_nohooks_block k orelse
    simp [cfVisitStmt, hb, ho, toC, Bind.bind, Except.bind]

theorem cf_nohooks_block (k : Nat) (b : PBlock) :
    cfVisitBlock ⟨false, false, false⟩ k b = .ok (toCBlock b, k) := by
  cases b with
  | nil => rfl
  | cons s rest =>
    have hs := cf_nohooks_stmt k s
    have hr := cf_nohooks_block k rest
    simp [cfVisitBlock, hs, hr, toCBlock, Bind.bind, Except.bind]
end

/-- C3: when the overload lacks `if_stmt`/`while_stmt` the construct is left
host-native (with an overload exposing no control-flow hook the whole tree is
unchanged); when the hook is present the construct becomes three zero-argument
functions (test returning the test expression, body, orelse — an empty orelse
padded with `pass`) plus `overload.<kind>_stmt(test_fn, body_fn, orelse_fn,
(local_writes,))`, where `local_writes` holds exactly the names in the union
of the body-scope and orelse-scope `modified` annotations of the node. -/
theorem C3_control_flow_spec (ov : CFOverload) (test : PExpr) (body orelse : PBlock)
    (bm om : List String) (k : Nat) :
    (∀ (b : PBlock) (k0 : Nat),
        cfVisitBlock ⟨false, false, false⟩ k0 b = .ok (toCBlock b, k0))
    ∧ (ov.hasIf = false → ∀ body2 orelse2 k1 k2,
        cfVisitBlock ov k body = .ok (body2, k1) →
        cfVisitBlock ov k1 orelse = .ok (orelse2, k2) →
        cfVisitStmt ov k (.ifS test body orelse bm om)
          = .ok ([.ifC test body2 orelse2 bm om], k2))
    ∧ (ov.hasIf = true → ∀ body2 orelse2 k1 k2,
        cfVisitBlock ov k body = .ok (body2, k1) →
        cfVisitBlock ov k1 orelse = .ok (orelse2, k2) →
        cfVisitStmt ov k (.ifS test body orelse bm om)
          = .ok ([.funcDef0 (newSymbol "if_test" k2) [.retC test],
                  .funcDef0 (newSymbol "if_body" (k2 + 1)) body2,
                  .funcDef0 (newSymbol "if_orelse" (k2 + 2)) (orelsePad orelse2),
                  .ovStmtCall "if_stmt"
                    [newSymbol "if_test" k2, newSymbol "if_body" (k2 + 1),
                     newSymbol "if_orelse" (k2 + 2)]
                    (bm.union om)], k2 + 3))
    ∧ (ov.hasWhile = false → ∀ body2 orelse2 k1 k2,
        cfVisitBlock ov k body = .ok (body2, k1) →
        cfVisitBlock ov k1 orelse = .ok (orelse2, k2) →
        cfVisitStmt ov k (.whileS test body orelse bm om)
          = .ok ([.whileC test body2 orelse2 bm om], k2))
    ∧ (ov.hasWhile = true → ∀ body2 orelse2 k1 k2,
        cfVisitBlock ov k body = .ok (body2, k1) →
        cfVisitBlock ov k1 orelse = .ok (orelse2, k2) →
        cfVisitStmt ov k (.whileS test body orelse bm om)
          = .ok ([.funcDef0 (newSymbol "while_test" k2) [.retC test],
                  .funcDef0 (newSymbol "while_body" (k2 + 1)) body2,
                  .funcDef0 (newSymbol "while_orelse" (k2 + 2)) (orelsePad orelse2),
                  .ovStmtCall "while_stmt"
                    [newSymbol "while_test" k2, newSymbol "while_body" (k2 + 1),
                     newSymbol "while_orelse" (k2 + 2)]
                    (bm.union om)], k2 + 3))
    ∧ (∀ x, x ∈ bm.union om ↔ x ∈ bm ∨ x ∈ om) := by
  refine ⟨fun b k0 => cf_nohooks_block k0 b, ?_, ?_, ?_, ?_, ?_⟩
  · intro h body2 orelse2 k1 k2 hb ho
    simp [cfVisitStmt, hb, ho, h, Bind.bind, Except.bind]
  · intro h body2 orelse2 k1 k2 hb ho
    simp [cfVisitStmt, hb, ho, h, Bind.bind, Except.bind]
  · intro h body2 orelse2 k1 k2 hb ho
    simp [cfVisitStmt, hb, ho, h, Bind.bind, Except.bind]
  · intro h body2 orelse2 k1 k2 hb ho
    simp [cfVisitStmt, hb, ho, h, Bind.bind, Except.bind]
  · intro x
    exact List.mem_union_iff

theorem scopeForTargetStep_name (sc : Scope) (id : String) :
    scopeForTargetStep sc (.name id) = .ok (checkStore sc id) := rfl

theorem scopeForTargetStep_err (sc : Scope) (t : Targ)
    (h : (match t with | Targ.name _ => true | _ => false) = false) :
    scopeForTargetStep sc t = .error .attributeError := by
  cases t with
  | name id => simp at h
  | tup e2 => rfl
  | lst e2 => rfl
  | attr o f => rfl

theorem foldlM_checkStore_ok (sc : Scope) (elts : List Targ)
    (h : elts.all (fun t => match t with | .name _ => true | _ => false) = true) :
    ∃ r, elts.foldlM scopeForTargetStep sc = Except.ok r := by
  induction elts generalizing sc with
  | nil => exact ⟨sc, rfl⟩
  | cons t rest ih =>
    simp only [List.all_cons, Bool.and_eq_true] at h
    cases t with
    | name id =>
      obtain ⟨r, hr⟩ := ih (checkStore sc id) h.2
      exact ⟨r, by
        simp only [List.foldlM_cons, scopeForTargetStep_name, Bind.bind, Except.bind]
        exact hr⟩
    | tup e2 => simp at h
    | lst e2 => simp at h
    | attr o f => simp at h

theorem foldlM_checkStore_err (sc : Scope) (elts : List Targ)
    (h : elts.all (fun t => match t with | .name _ => true | _ => false) = false) :
    ∃ e, elts.foldlM scopeForTargetStep sc = Except.error e := by
  induction elts generalizing sc with
  | nil => simp at h
  | cons t rest ih =>
    simp only [List.all_cons, Bool.and_eq_false_iff] at h
    cases t with
    | name id =>
      rcases h with h | h
      · simp at h
      · obtain ⟨e, he⟩ := ih (checkStore sc id) h
        exact ⟨e, by
          simp only [List.foldlM_cons, scopeForTargetStep_name, Bind.bind, Except.bind]
          exact he⟩
    | tup e2 =>
      refine ⟨.attributeError, ?_⟩
      simp only [List.foldlM_cons, scopeForTargetStep_err sc (Targ.tup e2) rfl,
        Bind.bind, Except.bind]
    | lst e2 =>
      refine ⟨.attributeError, ?_⟩
      simp only [List.foldlM_cons, scopeForTargetStep_err sc (Targ.lst e2) rfl,
        Bind.bind, Except.bind]
    | attr o f =>
      refine ⟨.attributeError, ?_⟩
      simp only [List.foldlM_cons, scopeForTargetStep_err sc (Targ.attr o f) rfl,
        Bind.bind, Except.bind]

theorem mapGetIds_ok (elts : List Targ)
    (h : elts.all (fun t => match t with | .name _ => true | _ => false) = true) :
    ∃ ids, mapGetIds elts = Except.ok ids := by
  induction elts with
  | nil => exact ⟨[], rfl⟩
  | cons t rest ih =>
    simp only [List.all_cons, Bool.and_eq_true] at h
    cases t with
    | name id =>
      obtain ⟨ids, hi⟩ := ih h.2
      exact ⟨id :: ids, by simp [mapGetIds, Targ.getId, hi, Bind.bind, Except.bind]⟩
    | tup e2 => simp at h
    | lst e2 => simp at h
    | attr o f => simp at h

theorem mapGetIds_err (elts : List Targ)
    (h : elts.all (fun t => match t with | .name _ => true | _ => false) = false) :
    ∃ e, mapGetIds elts = Except.error e := by
  induction elts with
  | nil => simp at h
  | cons t rest ih =>
    simp only [List.all_cons, Bool.and_eq_false_iff] at h
    cases t with
    | name id =>
      rcases h with h | h
      · simp at h
      · obtain ⟨e, he⟩ := ih h
        exact ⟨e, by simp [mapGetIds, Targ.getId, he, Bind.bind, Except.bind]⟩
    | tup e2 =>
      exact ⟨.attributeError, by simp [mapGetIds, Targ.getId, Bind.bind, Except.bind]⟩
    | lst e2 =>
      exact ⟨.attributeError, by simp [mapGetIds, Targ.getId, Bind.bind, Except.bind]⟩
    | attr o f =>
      exact ⟨.attributeError, by simp [mapGetIds, Targ.getId, Bind.bind, Except.bind]⟩

mutual
theorem scope_ok_stmt (sc : Scope) (s : PStmt) (h : goodForsStmt s = true) :
    ∃ r, scopeVisitStmt sc s = .ok r := by
  cases s with
  | assign t v => exact ⟨_, rfl⟩
  | augAssign t v => exact ⟨_, rfl⟩
  | passS => exact ⟨_, rfl⟩
  | ifS test body orelse bm om =>
    simp only [goodForsStmt, Bool.and_eq_true] at h
    obtain ⟨sc2, h2⟩ := scope_ok_block (scopeVisitExpr sc test) body h.1
    obtain ⟨sc3, h3⟩ := scope_ok_block sc2 orelse h.2
    exact ⟨sc3, by simp [scopeVisitStmt, h2, h3, Bind.bind, Except.bind]⟩
  | whileS test body orelse bm om =>
    simp only [goodForsStmt, Bool.and_eq_true] at h
    obtain ⟨sc2, h2⟩ := scope_ok_block (scopeVisitExpr sc test) body h.1
    obtain ⟨sc3, h3⟩ := scope_ok_block sc2 orelse h.2
    exact ⟨sc3, by simp [scopeVisitStmt, h2, h3, Bind.bind, Except.bind]⟩
  | forS target iter body orelse bm om =>
    simp only [goodForsStmt, Bool.and_eq_true] at h
    obtain ⟨⟨hT, hB⟩, hO⟩ := h
    cases target with
    | name id =>
      obtain ⟨sc3, h3⟩ :=
        scope_ok_block (scopeChildrenExpr (checkStore sc id) iter) body hB
      obtain ⟨sc4, h4⟩ := scope_ok_block sc3 orelse hO
      exact ⟨sc4, by
        simp [scopeVisitStmt, scopeForTargetStep_name, h3, h4, Bind.bind, Except.bind]⟩
    | tup elts =>
      obtain ⟨sc1, h1⟩ := foldlM_checkStore_ok sc elts (by simpa [Targ.supported] using hT)
      obtain ⟨sc3, h3⟩ := scope_ok_block (scopeChildrenExpr sc1 iter) body hB
      obtain ⟨sc4, h4⟩ := scope_ok_block sc3 orelse hO
      exact ⟨sc4, by simp [scopeVisitStmt, h1, h3, h4, Bind.bind, Except.bind]⟩
    | lst elts =>
      obtain ⟨sc1, h1⟩ := foldlM_checkStore_ok sc elts (by simpa [Targ.supported] using hT)
      obtain ⟨sc3, h3⟩ := scope_ok_block (scopeChildrenExpr sc1 iter) body hB
      obtain ⟨sc4, h4⟩ := scope_ok_block sc3 orelse hO
      exact ⟨sc4, by simp [scopeVisitStmt, h1, h3, h4, Bind.bind, Except.bind]⟩
    | attr o f => simp [Targ.supported] at hT

theorem scope_ok_block (sc : Scope) (b : PBlock) (h : goodForsBlock b = true) :
    ∃ r, scopeVisitBlock sc b = .ok r := by
  cases b with
  | nil => exact ⟨sc, rfl⟩
  | cons s rest =>
    simp only [goodForsBlock, Bool.and_eq_true] at h
    obtain ⟨sc1, h1⟩ := scope_ok_stmt sc s h.1
    obtain ⟨sc2, h2⟩ := scope_ok_block sc1 rest h.2
    exact ⟨sc2, by simp [scopeVisitBlock, h1, h2, Bind.bind, Except.bind]⟩
end

mutual
theorem scope_err_stmt (sc : Scope) (s : PStmt) (h : goodForsStmt s = false) :
    ∃ e, scopeVisitStmt sc s = .error e := by
  cases s with
  | assign t v => simp [goodForsStmt] at h
  | augAssign t v => simp [goodForsStmt] at h
  | passS => simp [goodForsStmt] at h
  | ifS test body orelse bm om =>
    simp only [goodForsStmt, Bool.and_eq_false_iff] at h
    cases hb : goodForsBlock body with
    | false =>
      obtain ⟨e, he⟩ := scope_err_block (scopeVisitExpr sc test) body hb
      exact ⟨e, by simp [scopeVisitStmt, he, Bind.bind, Except.bind]⟩
    | true =>
      have ho : goodForsBlock orelse = false := by
        rcases h with h | h
        · rw [hb] at h
          simp at h
        · exact h
      obtain ⟨sc2, h2⟩ := scope_ok_block (scopeVisitExpr sc test) body hb
      obtain ⟨e, he⟩ := scope_err_block sc2 orelse ho
      exact ⟨e, by simp [scopeVisitStmt, h2, he, Bind.bind, Except.bind]⟩
  | whileS test body orelse bm om =>
    simp only [goodForsStmt, Bool.and_eq_false_iff] at h
    cases hb : goodForsBlock body with
    | false =>
      obtain ⟨e, he⟩ := scope_err_block (scopeVisitExpr sc test) body hb
      exact ⟨e, by simp [scopeVisitStmt, he, Bind.bind, Except.bind]⟩
    | true =>
      have ho : goodForsBlock orelse = false := by
        rcases h with h | h
        · rw [hb] at h
          simp at h
        · exact h
      obtain ⟨sc2, h2⟩ := scope_ok_block (scopeVisitExpr sc test) body hb
      obtain ⟨e, he⟩ := scope_err_block sc2 orelse ho
      exact ⟨e, by simp [scopeVisitStmt, h2, he, Bind.bind, Except.bind]⟩
  | forS target iter body orelse bm om =>
    simp only [goodForsStmt, Bool.and_eq_false_iff] at h
    cases target with
    | name id =>
      cases hb : goodForsBlock body with
      | false =>
        obtain ⟨e, he⟩ :=
          scope_err_block (scopeChildrenExpr (checkStore sc id) iter) body hb
        exact ⟨e, by
          simp [scopeVisitStmt, scopeForTargetStep_name, he, Bind.bind, Except.bind]⟩
      | true =>
        have ho : goodForsBlock orelse = false := by
          rcases h with (h | h) | h
          · simp [Targ.supported] at h
          · rw [hb] at h
            simp at h
          · exact h
        obtain ⟨sc3, h3⟩ :=
          scope_ok_block (scopeChildrenExpr (checkStore sc id) iter) body hb
        obtain ⟨e, he⟩ := scope_err_block sc3 orelse ho
        exact ⟨e, by
          simp [scopeVisitStmt, scopeForTargetStep_name, h3, he, Bind.bind, Except.bind]⟩
    | tup elts =>
      cases hT : elts.all (fun t => match t with | .name _ => true | _ => false) with
      | false =>
        obtain ⟨e, he⟩ := foldlM_checkStore_err sc elts hT
        exact ⟨e, by simp [scopeVisitStmt, he, Bind.bind, Except.bind]⟩
      | true =>
        obtain ⟨sc1, h1⟩ := foldlM_checkStore_ok sc elts hT
        cases hb : goodForsBlock body with
        | false =>
          obtain ⟨e, he⟩ := scope_err_block (scopeChildrenExpr sc1 iter) body hb
          exact ⟨e, by simp [scopeVisitStmt, h1, he, Bind.bind, Except.bind]⟩
        | true =>
          have ho : goodForsBlock orelse = false := by
            rcases h with (h | h) | h
            · rw [Targ.supported, hT] at h
              simp at h
            · rw [hb] at h
              simp at h
            · exact h
          obtain ⟨sc3, h3⟩ := scope_ok_block (scopeChildrenExpr sc1 iter) body hb
          obtain ⟨e, he⟩ := scope_err_block sc3 orelse ho
          exact ⟨e, by simp [scopeVisitStmt, h1, h3, he, Bind.bind, Except.bind]⟩
    | lst elts =>
      cases hT : elts.all (fun t => match t with | .name _ => true | _ => false) with
      | false =>
        obtain ⟨e, he⟩ := foldlM_checkStore_err sc elts hT
        exact ⟨e, by simp [scopeVisitStmt, he, Bind.bind, Except.bind]⟩
      | true =>
        obtain ⟨sc1, h1⟩ := foldlM_checkStore_ok sc elts hT
        cases hb : goodForsBlock body with
        | false =>
          obtain ⟨e, he⟩ := scope_err_block (scopeChildrenExpr sc1 iter) body hb
          exact ⟨e, by simp [scopeVisitStmt, h1, he, Bind.bind, Except.bind]⟩
        | true =>
          have ho : goodForsBlock orelse = false := by
            rcases h with (h | h) | h
            · rw [Targ.supported, hT] at h
              simp at h
            · rw [hb] at h
              simp at h
            · exact h
          obtain ⟨sc3, h3⟩ := scope_ok_block (scopeChildrenExpr sc1 iter) body hb
          obtain ⟨e, he⟩ := scope_err_block sc3 orelse ho
          exact ⟨e, by simp [scopeVisitStmt, h1, h3, he, Bind.bind, Except.bind]⟩
    | attr o f =>
      exact ⟨.attributeError, by
        simp [scopeVisitStmt, scopeForTargetStep_err sc (Targ.attr o f) rfl,
          Bind.bind, Except.bind]⟩

theorem scope_err_block (sc : Scope) (b : PBlock) (h : goodForsBlock b = false) :
    ∃ e, scopeVisitBlock sc b = .error e := by
  cases b with
  | nil => simp [goodForsBlock] at h
  | cons s rest =>
    simp only [goodForsBlock, Bool.and_eq_false_iff] at h
    cases hs : goodForsStmt s with
    | false =>
      obtain ⟨e, he⟩ := scope_err_stmt sc s hs
      exact ⟨e, by simp [scopeVisitBlock, he, Bind.bind, Except.bind]⟩
    | true =>
      have hr : goodForsBlock rest = false := by
        rcases h with h | h
        · rw [hs] at h
          simp at h
        · exact h
      obtain ⟨sc1, h1⟩ := scope_ok_stmt sc s hs
      obtain ⟨e, he⟩ := scope_err_block sc1 rest hr
      exact ⟨e, by simp [scopeVisitBlock, h1, he, Bind.bind, Except.bind]⟩
end

mutual
theorem cf_ok_stmt (ov : CFOverload) (k : Nat) (s : PStmt) (h : goodForsStmt s = true) :
    ∃ r, cfVisitStmt ov k s = .ok r := by
  cases s with
  | assign t v => exact ⟨_, rfl⟩
  | augAssign t v => exact ⟨_, rfl⟩
  | passS => exact ⟨_, rfl⟩
  | ifS test body orelse bm om =>
    simp only [goodForsStmt, Bool.and_eq_true] at h
    obtain ⟨rb, h2⟩ := cf_ok_block ov k body h.1
    obtain ⟨ro, h3⟩ := cf_ok_block ov rb.2 orelse h.2
    cases hIf : ov.hasIf with
    | true => exact ⟨_, by simp [cfVisitStmt, h2, h3, hIf, Bind.bind, Except.bind] <;> rfl⟩
    | false => exact ⟨_, by simp [cfVisitStmt, h2, h3, hIf, Bind.bind, Except.bind] <;> rfl⟩
  | whileS test body orelse bm om =>
    simp only [goodForsStmt, Bool.and_eq_true] at h
    obtain ⟨rb, h2⟩ := cf_ok_block ov k body h.1
    obtain ⟨ro, h3⟩ := cf_ok_block ov rb.2 orelse h.2
    cases hW : ov.hasWhile with
    | true => exact ⟨_, by simp [cfVisitStmt, h2, h3, hW, Bind.bind, Except.bind] <;> rfl⟩
    | false => exact ⟨_, by simp [cfVisitStmt, h2, h3, hW, Bind.bind, Except.bind] <;> rfl⟩
  | forS target iter body orelse bm om =>
    simp only [goodForsStmt, Bool.and_eq_true] at h
    obtain ⟨⟨hT, hB⟩, hO⟩ := h
    obtain ⟨rb, h2⟩ := cf_ok_block ov k body hB
    obtain ⟨ro, h3⟩ := cf_ok_block ov rb.2 orelse hO
    cases hF : ov.hasFor with
    | false => exact ⟨_, by simp [cfVisitStmt, h2, h3, hF, Bind.bind, Except.bind] <;> rfl⟩
    | true =>
      cases target with
      | name id =>
        exact ⟨_, by
          simp [cfVisitStmt, h2, h3, hF, mapGetIds, Targ.getId, Bind.bind, Except.bind] <;> rfl⟩
      | tup elts =>
        obtain ⟨ids, hi⟩ := mapGetIds_ok elts (by simpa [Targ.supported] using hT)
        exact ⟨_, by simp [cfVisitStmt, h2, h3, hF, hi, Bind.bind, Except.bind] <;> rfl⟩
      | lst elts =>
        obtain ⟨ids, hi⟩ := mapGetIds_ok elts (by simpa [Targ.supported] using hT)
        exact ⟨_, by simp [cfVisitStmt, h2, h3, hF, hi, Bind.bind, Except.bind] <;> rfl⟩
      | attr o f => simp [Targ.supported] at hT

theorem cf_ok_block (ov : CFOverload) (k : Nat) (b : PBlock) (h : goodForsBlock b = true) :
    ∃ r, cfVisitBlock ov k b = .ok r := by
  cases b with
  | nil => exact ⟨_, rfl⟩
  | cons s rest =>
    simp only [goodForsBlock, Bool.and_eq_true] at h
    obtain ⟨r1, h1⟩ := cf_ok_stmt ov k s h.1
    obtain ⟨r2, h2⟩ := cf_ok_block ov r1.2 rest h.2
    exact ⟨_, by simp [cfVisitBlock, h1, h2, Bind.bind, Except.bind] <;> rfl⟩
end

mutual
theorem cf_err_stmt (ov : CFOverload) (k : Nat) (s : PStmt) (hF : ov.hasFor = true)
    (h : goodForsStmt s = false) : ∃ e, cfVisitStmt ov k s = .error e := by
  cases s with
  | assign t v => simp [goodForsStmt] at h
  | augAssign t v => simp [goodForsStmt] at h
  | passS => simp [goodForsStmt] at h
  | ifS test body orelse bm om =>
    simp only [goodForsStmt, Bool.and_eq_false_iff] at h
    cases hb : goodForsBlock body with
    | false =>
      obtain ⟨e, he⟩ := cf_err_block ov k body hF hb
      exact ⟨e, by simp [cfVisitStmt, he, Bind.bind, Except.bind]⟩
    | true =>
      have ho : goodForsBlock orelse = false := by
        rcases h with h | h
        · rw [hb] at h
          simp at h
        · exact h
      obtain ⟨rb, h2⟩ := cf_ok_block ov k body hb
      obtain ⟨e, he⟩ := cf_err_block ov rb.2 orelse hF ho
      exact ⟨e, by simp [cfVisitStmt, h2, he, Bind.bind, Except.bind]⟩
  | whileS test body orelse bm om =>
    simp only [goodForsStmt, Bool.and_eq_false_iff] at h
    cases hb : goodForsBlock body with
    | false =>
      obtain ⟨e, he⟩ := cf_err_block ov k body hF hb
      exact ⟨e, by simp [cfVisitStmt, he, Bind.bind, Except.bind]⟩
    | true =>
      have ho : goodForsBlock orelse = false := by
        rcases h with h | h
        · rw [hb] at h
          simp at h
        · exact h
      obtain ⟨rb, h2⟩ := cf_ok_block ov k body hb
      obtain ⟨e, he⟩ := cf_err_block ov rb.2 orelse hF ho
      exact ⟨e, by simp [cfVisitStmt, h2, he, Bind.bind, Except.bind]⟩
  | forS target iter body orelse bm om =>
    simp only [goodForsStmt, Bool.and_eq_false_iff] at h
    cases hb : goodForsBlock body with
    | false =>
      obtain ⟨e, he⟩ := cf_err_block ov k body hF hb
      exact ⟨e, by simp [cfVisitStmt, he, Bind.bind, Except.bind]⟩
    | true =>
      obtain ⟨rb, h2⟩ := cf_ok_block ov k body hb
      cases ho : goodForsBlock orelse with
      | false =>
        obtain ⟨e, he⟩ := cf_err_block ov rb.2 orelse hF ho
        exact ⟨e, by simp [cfVisitStmt, h2, he, Bind.bind, Except.bind]⟩
      | true =>
        obtain ⟨ro, h3⟩ := cf_ok_block ov rb.2 orelse ho
        have hT : target.supported = false := by
          rcases h with (h | h) | h
          · exact h
          · rw [hb] at h
            simp at h
          · rw [ho] at h
            simp at h
        cases target with
        | name id => simp [Targ.supported] at hT
        | tup elts =>
          obtain ⟨e, he⟩ := mapGetIds_err elts (by simpa [Targ.supported] using hT)
          exact ⟨e, by simp [cfVisitStmt, h2, h3, hF, he, Bind.bind, Except.bind]⟩
        | lst elts =>
          obtain ⟨e, he⟩ := mapGetIds_err elts (by simpa [Targ.supported] using hT)
          exact ⟨e, by simp [cfVisitStmt, h2, h3, hF, he, Bind.bind, Except.bind]⟩
        | attr o f =>
          exact ⟨.valueErrorForTarget, by
            simp [cfVisitStmt, h2, h3, hF, Bind.bind, Except.bind]⟩

theorem cf_err_block (ov : CFOverload) (k : Nat) (b : PBlock) (hF : ov.hasFor = true)
    (h : goodForsBlock b = false) : ∃ e, cfVisitBlock ov k b = .error e := by
  cases b with
  | nil => simp [goodForsBlock] at h
  | cons s rest =>
    simp only [goodForsBlock, Bool.and_eq_false_iff] at h
    cases hs : goodForsStmt s with
    | false =>
      obtain ⟨e, he⟩ := cf_err_stmt ov k s hF hs
      exact ⟨e, by simp [cfVisitBlock, he, Bind.bind, Except.bind]⟩
    | true =>
      have hr : goodForsBlock rest = false := by
        rcases h with h | h
        · rw [hs] at h
          simp at h
        · exact h
      obtain ⟨r1, h1⟩ := cf_ok_stmt ov k s hs
      obtain ⟨e, he⟩ := cf_err_block ov r1.2 rest hF hr
      exact ⟨e, by simp [cfVisitBlock, h1, he, Bind.bind, Except.bind]⟩
end

theorem Targ.varSupported_imp_supported (t : Targ) (h : t.varSupported = true) :
    t.supported = true := by
  cases t with
  | name id => rfl
  | tup elts =>
    simp only [Targ.varSupported, Bool.and_eq_true] at h
    simp [Targ.supported, h.2]
  | lst elts =>
    simp only [Targ.varSupported, Bool.and_eq_true] at h
    simp [Targ.supported, h.2]
  | attr o f => simp [Targ.varSupported] at h

mutual
theorem goodVar_imp_good_stmt (s : PStmt) (h : goodVarForsStmt s = true) :
    goodForsStmt s = true := by
  cases s with
  | assign t v => rfl
  | augAssign t v => rfl
  | passS => rfl
  | ifS test body orelse bm om =>
    simp only [goodVarForsStmt, Bool.and_eq_true] at h
    simp [goodForsStmt, goodVar_imp_good_block body h.1, goodVar_imp_good_block orelse h.2]
  | whileS test body orelse bm om =>
    simp only [goodVarForsStmt, Bool.and_eq_true] at h
    simp [goodForsStmt, goodVar_imp_good_block body h.1, goodVar_imp_good_block orelse h.2]
  | forS target iter body orelse bm om =>
    simp only [goodVarForsStmt, Bool.and_eq_true] at h
    obtain ⟨⟨hT, hB⟩, hO⟩ := h
    simp [goodForsStmt, Targ.varSupported_imp_supported target hT,
      goodVar_imp_good_block body hB, goodVar_imp_good_block orelse hO]

theorem goodVar_imp_good_block (b : PBlock) (h : goodVarForsBlock b = true) :
    goodForsBlock b = true := by
  cases b with
  | nil => rfl
  | cons s rest =>
    simp only [goodVarForsBlock, Bool.and_eq_true] at h
    simp [goodForsBlock, goodVar_imp_good_stmt s h.1, goodVar_imp_good_block rest h.2]
end

mutual
theorem var_ok_stmt (rd : Bool) (sc : Scope) (k : Nat) (s : PStmt)
    (hg : goodVarForsStmt s = true) (ha : containsAugStmt s = false) :
    ∃ r, varVisitStmt rd sc k s = .ok r := by
  cases s with
  | assign t v =>
    cases hv : sc.should_virtualize t with
    | true => exact ⟨_, by simp [varVisitStmt, hv] <;> rfl⟩
    | false => exact ⟨_, by simp [varVisitStmt, hv] <;> rfl⟩
  | augAssign t v => simp [containsAugStmt] at ha
  | passS => exact ⟨_, rfl⟩
  | ifS test body orelse bm om =>
    simp only [goodVarForsStmt, Bool.and_eq_true] at hg
    simp only [containsAugStmt, Bool.or_eq_false_iff] at ha
    obtain ⟨rb, h2⟩ := var_ok_block rd sc k body hg.1 ha.1
    obtain ⟨ro, h3⟩ := var_ok_block rd sc rb.2 orelse hg.2 ha.2
    exact ⟨_, by simp [varVisitStmt, h2, h3, Bind.bind, Except.bind] <;> rfl⟩
  | whileS test body orelse bm om =>
    simp only [goodVarForsStmt, Bool.and_eq_true] at hg
    simp only [containsAugStmt, Bool.or_eq_false_iff] at ha
    obtain ⟨rb, h2⟩ := var_ok_block rd sc k body hg.1 ha.1
    obtain ⟨ro, h3⟩ := var_ok_block rd sc rb.2 orelse hg.2 ha.2
    exact ⟨_, by simp [varVisitStmt, h2, h3, Bind.bind, Except.bind] <;> rfl⟩
  | forS target iter body orelse bm om =>
    simp only [goodVarForsStmt, Bool.and_eq_true] at hg
    obtain ⟨⟨hT, hB⟩, hO⟩ := hg
    simp only [containsAugStmt, Bool.or_eq_false_iff] at ha
    obtain ⟨rb, h2⟩ := var_ok_block rd sc k body hB ha.1
    obtain ⟨ro, h3⟩ := var_ok_block rd sc rb.2 orelse hO ha.2
    cases target with
    | name id =>
      exact ⟨_, by
        simp [varVisitStmt, h2, h3, mapGetIds, Targ.getId, Bind.bind, Except.bind] <;> rfl⟩
    | tup elts =>
      simp only [Targ.varSupported, Bool.and_eq_true] at hT
      cases elts with
      | nil => simp at hT
      | cons t ts =>
        cases ts with
        | nil =>
          cases t with
          | name id =>
            exact ⟨_, by
              simp [varVisitStmt, h2, h3, mapGetIds, Targ.getId,
                Bind.bind, Except.bind] <;> rfl⟩
          | tup e2 => simp at hT
          | lst e2 => simp at hT
          | attr o f => simp at hT
        | cons t2 ts2 =>
          obtain ⟨ids, hi⟩ := mapGetIds_ok (t :: t2 :: ts2) hT.2
          exact ⟨_, by simp [varVisitStmt, h2, h3, hi, Bind.bind, Except.bind] <;> rfl⟩
    | lst elts =>
      simp only [Targ.varSupported, Bool.and_eq_true] at hT
      cases elts with
      | nil => simp at hT
      | cons t ts =>
        cases ts with
        | nil =>
          cases t with
          | name id =>
            exact ⟨_, by
              simp [varVisitStmt, h2, h3, mapGetIds, Targ.getId,
                Bind.bind, Except.bind] <;> rfl⟩
          | tup e2 => simp at hT
          | lst e2 => simp at hT
          | attr o f => simp at hT
        | cons t2 ts2 =>
          obtain ⟨ids, hi⟩ := mapGetIds_ok (t :: t2 :: ts2) hT.2
          exact ⟨_, by simp [varVisitStmt, h2, h3, hi, Bind.bind, Except.bind] <;> rfl⟩
    | attr o f => simp [Targ.varSupported] at hT

theorem var_ok_block (rd : Bool) (sc : Scope) (k : Nat) (b : PBlock)
    (hg : goodVarForsBlock b = true) (ha : containsAugBlock b = false) :
    ∃ r, varVisitBlock rd sc k b = .ok r := by
  cases b with
  | nil => exact ⟨_, rfl⟩
  | cons s rest =>
    simp only [goodVarForsBlock, Bool.and_eq_true] at hg
    simp only [containsAugBlock, Bool.or_eq_false_iff] at ha
    obtain ⟨r1, h1⟩ := var_ok_stmt rd sc k s hg.1 ha.1
    obtain ⟨r2, h2⟩ := var_ok_block rd sc r1.2 rest hg.2 ha.2
    exact ⟨_, by simp [varVisitBlock, h1, h2, Bind.bind, Except.bind] <;> rfl⟩
end

mutual
theorem var_aug_stmt (rd : Bool) (sc : Scope) (k : Nat) (s : PStmt)
    (hg : goodVarForsStmt s = true) (ha : containsAugStmt s = true) :
    varVisitStmt rd sc k s = .error .notImplementedAugAssign := by
  cases s with
  | assign t v => simp [containsAugStmt] at ha
  | augAssign t v => rfl
  | passS => simp [containsAugStmt] at ha
  | ifS test body orelse bm om =>
    simp only [goodVarForsStmt, Bool.and_eq_true] at hg
    cases hab : containsAugBlock body with
    | true =>
      have he := var_aug_block rd sc k body hg.1 hab
      simp [varVisitStmt, he, Bind.bind, Except.bind]
    | false =>
      have hao : containsAugBlock orelse = true := by
        simp only [containsAugStmt, Bool.or_eq_true] at ha
        rcases ha with h | h
        · rw [hab] at h
          simp at h
        · exact h
      obtain ⟨rb, h2⟩ := var_ok_block rd sc k body hg.1 hab
      have he := var_aug_block rd sc rb.2 orelse hg.2 hao
      simp [varVisitStmt, h2, he, Bind.bind, Except.bind]
  | whileS test body orelse bm om =>
    simp only [goodVarForsStmt, Bool.and_eq_true] at hg
    cases hab : containsAugBlock body with
    | true =>
      have he := var_aug_block rd sc k body hg.1 hab
      simp [varVisitStmt, he, Bind.bind, Except.bind]
    | false =>
      have hao : containsAugBlock orelse = true := by
        simp only [containsAugStmt, Bool.or_eq_true] at ha
        rcases ha with h | h
        · rw [hab] at h
          simp at h
        · exact h
      obtain ⟨rb, h2⟩ := var_ok_block rd sc k body hg.1 hab
      have he := var_aug_block rd sc rb.2 orelse hg.2 hao
      simp [varVisitStmt, h2, he, Bind.bind, Except.bind]
  | forS target iter body orelse bm om =>
    simp only [goodVarForsStmt, Bool.and_eq_true] at hg
    obtain ⟨⟨hT, hB⟩, hO⟩ := hg
    cases hab : containsAugBlock body with
    | true =>
      have he := var_aug_block rd sc k body hB hab
      simp [varVisitStmt, he, Bind.bind, Except.bind]
    | false =>
      have hao : containsAugBlock orelse = true := by
        simp only [containsAugStmt, Bool.or_eq_true] at ha
        rcases ha with h | h
        · rw [hab] at h
          simp at h
        · exact h
      obtain ⟨rb, h2⟩ := var_ok_block rd sc k body hB hab
      have he := var_aug_block rd sc rb.2 orelse hO hao
      simp [varVisitStmt, h2, he, Bind.bind, Except.bind]

theorem var_aug_block (rd : Bool) (sc : Scope) (k : Nat) (b : PBlock)
    (hg : goodVarForsBlock b = true) (ha : containsAugBlock b = true) :
    varVisitBlock rd sc k b = .error .notImplementedAugAssign := by
  cases b with
  | nil => simp [containsAugBlock] at ha
  | cons s rest =>
    simp only [goodVarForsBlock, Bool.and_eq_true] at hg
    cases has : containsAugStmt s with
    | true =>
      have he := var_aug_stmt rd sc k s hg.1 has
      simp [varVisitBlock, he, Bind.bind, Except.bind]
    | false =>
      have har : containsAugBlock rest = true := by
        simp only [containsAugBlock, Bool.or_eq_true] at ha
        rcases ha with h | h
        · rw [has] at h
          simp at h
        · exact h
      obtain ⟨r1, h1⟩ := var_ok_stmt rd sc k s hg.1 has
      have he := var_aug_block rd sc r1.2 rest hg.2 har
      simp [varVisitBlock, h1, he, Bind.bind, Except.bind]
end

mutual
theorem var_verr_stmt (rd : Bool) (sc : Scope) (k : Nat) (s : PStmt)
    (h : goodVarForsStmt s = false) : ∃ e, varVisitStmt rd sc k s = .error e := by
  cases s with
  | assign t v => simp [goodVarForsStmt] at h
  | augAssign t v => exact ⟨.notImplementedAugAssign, rfl⟩
  | passS => simp [goodVarForsStmt] at h
  | ifS test body orelse bm om =>
    simp only [goodVarForsStmt, Bool.and_eq_false_iff] at h
    cases hres1 : varVisitBlock rd sc k body with
    | error e => exact ⟨e, by simp [varVisitStmt, hres1, Bind.bind, Except.bind]⟩
    | ok rb =>
      cases hres2 : varVisitBlock rd sc rb.2 orelse with
      | error e =>
        exact ⟨e, by simp [varVisitStmt, hres1, hres2, Bind.bind, Except.bind]⟩
      | ok ro =>
        exfalso
        rcases h with h | h
        · obtain ⟨e, he⟩ := var_verr_block rd sc k body h
          rw [hres1] at he
          exact Except.noConfusion he
        · obtain ⟨e, he⟩ := var_verr_block rd sc rb.2 orelse h
          rw [hres2] at he
          exact Except.noConfusion he
  | whileS test body orelse bm om =>
    simp only [goodVarForsStmt, Bool.and_eq_false_iff] at h
    cases hres1 : varVisitBlock rd sc k body with
    | error e => exact ⟨e, by simp [varVisitStmt, hres1, Bind.bind, Except.bind]⟩
    | ok rb =>
      cases hres2 : varVisitBlock rd sc rb.2 orelse with
      | error e =>
        exact ⟨e, by simp [varVisitStmt, hres1, hres2, Bind.bind, Except.bind]⟩
      | ok ro =>
        exfalso
        rcases h with h | h
        · obtain ⟨e, he⟩ := var_verr_block rd sc k body h
          rw [hres1] at he
          exact Except.noConfusion he
        · obtain ⟨e, he⟩ := var_verr_block rd sc rb.2 orelse h
          rw [hres2] at he
          exact Except.noConfusion he
  | forS target iter body orelse bm om =>
    simp only [goodVarForsStmt, Bool.and_eq_false_iff] at h
    cases hres1 : varVisitBlock rd sc k body with
    | error e => exact ⟨e, by simp [varVisitStmt, hres1, Bind.bind, Except.bind]⟩
    | ok rb =>
      cases hres2 : varVisitBlock rd sc rb.2 orelse with
      | error e =>
        exact ⟨e, by simp [varVisitStmt, hres1, hres2, Bind.bind, Except.bind]⟩
      | ok ro =>
        cases hT : target.varSupported with
        | true =>
          exfalso
          rcases h with (h | h) | h
          · rw [hT] at h
            simp at h
          · obtain ⟨e, he⟩ := var_verr_block rd sc k body h
            rw [hres1] at he
            exact Except.noConfusion he
          · obtain ⟨e, he⟩ := var_verr_block rd sc rb.2 orelse h
            rw [hres2] at he
            exact Except.noConfusion he
        | false =>
          cases target with
          | name id => simp [Targ.varSupported] at hT
          | tup elts =>
            cases elts with
            | nil =>
              exact ⟨.indexError, by
                simp [varVisitStmt, hres1, hres2, mapGetIds, Bind.bind, Except.bind]⟩
            | cons t ts =>
              have hall : (t :: ts).all
                  (fun t => match t with | Targ.name _ => true | _ => false) = false := by
                simp only [Targ.varSupported, List.isEmpty_cons, Bool.not_false,
                  Bool.true_and] at hT
                exact hT
              obtain ⟨e, he⟩ := mapGetIds_err (t :: ts) hall
              exact ⟨e, by simp [varVisitStmt, hres1, hres2, he, Bind.bind, Except.bind]⟩
          | lst elts =>
            cases elts with
            | nil =>
              exact ⟨.indexError, by
                simp [varVisitStmt, hres1, hres2, mapGetIds, Bind.bind, Except.bind]⟩
            | cons t ts =>
              have hall : (t :: ts).all
                  (fun t => match t with | Targ.name _ => true | _ => false) = false := by
                simp only [Targ.varSupported, List.isEmpty_cons, Bool.not_false,
                  Bool.true_and] at hT
                exact hT
              obtain ⟨e, he⟩ := mapGetIds_err (t :: ts) hall
              exact ⟨e, by simp [varVisitStmt, hres1, hres2, he, Bind.bind, Except.bind]⟩
          | attr o f =>
            exact ⟨.valueErrorForTarget, by
              simp [varVisitStmt, hres1, hres2, Bind.bind, Except.bind]⟩

theorem var_verr_block (rd : Bool) (sc : Scope) (k : Nat) (b : PBlock)
    (h : goodVarForsBlock b = false) : ∃ e, varVisitBlock rd sc k b = .error e := by
  cases b with
  | nil => simp [goodVarForsBlock] at h
  | cons s rest =>
    simp only [goodVarForsBlock, Bool.and_eq_false_iff] at h
    cases hres1 : varVisitStmt rd sc k s with
    | error e => exact ⟨e, by simp [varVisitBlock, hres1, Bind.bind, Except.bind]⟩
    | ok r1 =>
      cases hres2 : varVisitBlock rd sc r1.2 rest with
      | error e =>
        exact ⟨e, by simp [varVisitBlock, hres1, hres2, Bind.bind, Except.bind]⟩
      | ok r2 =>
        exfalso
        rcases h with h | h
        · obtain ⟨e, he⟩ := var_verr_stmt rd sc k s h
          rw [hres1] at he
          exact Except.noConfusion he
        · obtain ⟨e, he⟩ := var_verr_block rd sc r1.2 rest h
          rw [hres2] at he
          exact Except.noConfusion he
end

theorem var_err_stmt (rd : Bool) (sc : Scope) (k : Nat) (s : PStmt)
    (h : goodForsStmt s = false) : ∃ e, varVisitStmt rd sc k s = .error e := by
  refine var_verr_stmt rd sc k s ?_
  cases hv : goodVarForsStmt s with
  | false => rfl
  | true =>
    rw [goodVar_imp_good_stmt s hv] at h
    simp at h

theorem var_empty_seq_target (rd : Bool) (sc : Scope) (k : Nat) (iter : PExpr)
    (body orelse : PBlock) (bm om : List String)
    (hB : goodVarForsBlock body = true) (hO : goodVarForsBlock orelse = true)
    (haB : containsAugBlock body = false) (haO : containsAugBlock orelse = false) :
    varVisitStmt rd sc k (.forS (.tup []) iter body orelse bm om) = .error .indexError
    ∧ varVisitStmt rd sc k (.forS (.lst []) iter body orelse bm om)
        = .error .indexError := by
  obtain ⟨rb, h2⟩ := var_ok_block rd sc k body hB haB
  obtain ⟨ro, h3⟩ := var_ok_block rd sc rb.2 orelse hO haO
  constructor
  · simp [varVisitStmt, h2, h3, mapGetIds, Bind.bind, Except.bind]
  · simp [varVisitStmt, h2, h3, mapGetIds, Bind.bind, Except.bind]

/-- C7: a tree containing an augmented assignment makes the Variables pass
raise (`NotImplementedError('AugAssign not yet implemented.')`, the spec's
`UnsupportedConstructError`); when the rest of the tree gives the pass no
other reason to raise (every for-target is a name or a non-empty
tuple/list of names) the error is exactly that one, and in no case is a
rewritten tree produced. -/
theorem C7_augassign_rejected (rd : Bool) (sc : Scope) (k : Nat) (b : PBlock)
    (ha : containsAugBlock b = true) :
    (∃ e, varVisitBlock rd sc k b = .error e)
    ∧ (goodVarForsBlock b = true →
        varVisitBlock rd sc k b = .error .notImplementedAugAssign)
    ∧ (∀ r, varVisitBlock rd sc k b ≠ .ok r) := by
  have h1 : ∃ e, varVisitBlock rd sc k b = .error e := by
    cases hg : goodVarForsBlock b with
    | true => exact ⟨_, var_aug_block rd sc k b hg ha⟩
    | false => exact var_verr_block rd sc k b hg
  refine ⟨h1, fun hg => var_aug_block rd sc k b hg ha, ?_⟩
  intro r hr
  obtain ⟨e, he⟩ := h1
  rw [hr] at he
  exact Except.noConfusion he

/-- C7 witness: the Variables pass on the one-statement tree `x += 1`. -/
theorem C7_witness :
    varVisitBlock true Scope.empty 0 (.cons (.augAssign "x" (.const 1)) .nil)
      = .error .notImplementedAugAssign :=
  (C7_augassign_rejected true Scope.empty 0 _
      (by simp [containsAugBlock, containsAugStmt])).2.1
    (by simp [goodVarForsBlock, goodVarForsStmt])

/-- C8 (amended): a for-loop whose target is neither a plain name nor a
tuple/list of names makes the tree ill formed, and processing an ill-formed
tree errors in the scope analysis, in the Control-Flow pass (when it rewrites
for-loops, i.e. has the `for_stmt` hook) and in the Variables pass.  The
scope analysis and the Control-Flow pass raise no error on well-formed trees;
the Variables pass raises no error only when additionally every sequence
for-target is non-empty and no augmented assignment occurs — its
single-target branch indexes `targets[0]` unconditionally, so an *empty*
tuple/list for-target (a well-formed tree under the original claim) raises
`IndexError` there; see the counterexample. -/
theorem C8_for_target_spec :
    (∀ (target : Targ) (iter : PExpr) (body orelse : PBlock) (bm om : List String),
        target.supported = false →
        goodForsStmt (.forS target iter body orelse bm om) = false)
    ∧ (∀ (sc : Scope) (s : PStmt), goodForsStmt s = false →
        ∃ e, scopeVisitStmt sc s = .error e)
    ∧ (∀ (ov : CFOverload) (k : Nat) (s : PStmt), ov.hasFor = true →
        goodForsStmt s = false → ∃ e, cfVisitStmt ov k s = .error e)
    ∧ (∀ (rd : Bool) (sc : Scope) (k : Nat) (s : PStmt), goodForsStmt s = false →
        ∃ e, varVisitStmt rd sc k s = .error e)
    ∧ (∀ (sc : Scope) (s : PStmt), goodForsStmt s = true →
        ∃ r, scopeVisitStmt sc s = .ok r)
    ∧ (∀ (ov : CFOverload) (k : Nat) (s : PStmt), goodForsStmt s = true →
        ∃ r, cfVisitStmt ov k s = .ok r)
    ∧ (∀ (s : PStmt), goodVarForsStmt s = true → goodForsStmt s = true)
    ∧ (∀ (rd : Bool) (sc : Scope) (k : Nat) (s : PStmt), goodVarForsStmt s = true →
        containsAugStmt s = false → ∃ r, varVisitStmt rd sc k s = .ok r)
    ∧ (∀ (rd : Bool) (sc : Scope) (k : Nat) (iter : PExpr) (body orelse : PBlock)
        (bm om : List String),
        goodVarForsBlock body = true → goodVarForsBlock orelse = true →
        containsAugBlock body = false → containsAugBlock orelse = false →
        varVisitStmt rd sc k (.forS (.tup []) iter body orelse bm om)
            = .error .indexError
        ∧ varVisitStmt rd sc k (.forS (.lst []) iter body orelse bm om)
            = .error .indexError) := by
  refine ⟨?_, ?_, ?_, ?_, ?_, ?_, ?_, ?_, ?_⟩
  · intro target iter body orelse bm om h
    simp [goodForsStmt, h]
  · exact scope_err_stmt
  · exact cf_err_stmt
  · exact var_err_stmt
  · exact scope_ok_stmt
  · exact cf_ok_stmt
  · exact goodVar_imp_good_stmt
  · exact var_ok_stmt
  · exact var_empty_seq_target

/-- C8 counterexample: `for () in xs: pass` has a for-target that *is* a
tuple of names (vacuously) — the tree is well formed in the original claim's
sense — yet the Variables pass raises `IndexError` from its unconditional
`targets[0]`, refuting the claim's clause that such trees raise no error. -/
theorem C8_counterexample :
    (Targ.tup []).supported = true
    ∧ goodForsStmt
        (.forS (.tup []) (.name "xs") (.cons .passS .nil) .nil [] []) = true
    ∧ varVisitStmt true Scope.empty 0
        (.forS (.tup []) (.name "xs") (.cons .passS .nil) .nil [] [])
      = .error .indexError := by
  refine ⟨rfl, ?_, ?_⟩
  · simp [goodForsStmt, goodForsBlock, Targ.supported]
  · simp [varVisitStmt, varVisitBlock, mapGetIds, Bind.bind, Except.bind]

theorem pyDictGet_cons (k2 : String) (v : Nat) (rest : List (String × Nat)) (k : String) :
    pyDictGet ((k2, v) :: rest) k =
      match pyDictGet rest k with
      | some r => some r
      | none => if k = k2 then some v else none := rfl

theorem pyDictGet_append (d1 d2 : List (String × Nat)) (k : String) :
    pyDictGet (d1 ++ d2) k =
      match pyDictGet d2 k with
      | some v => some v
      | none => pyDictGet d1 k := by
  induction d1 with
  | nil =>
    cases h : pyDictGet d2 k <;> simp [pyDictGet, h]
  | cons p d1 ih =>
    obtain ⟨k2, v⟩ := p
    rw [List.cons_append, pyDictGet_cons, pyDictGet_cons, ih]
    cases h : pyDictGet d2 k <;> cases h2 : pyDictGet d1 k <;> simp [h, h2]

theorem pyDictGet_zip_none (keys : List String) (vals : List Nat) (k : String)
    (h : k ∉ keys) : pyDictGet (keys.zip vals) k = none := by
  induction keys generalizing vals with
  | nil => rfl
  | cons k2 rest ih =>
    cases vals with
    | nil => rfl
    | cons v vs =>
      have hk : k ≠ k2 := fun he => h (he ▸ List.mem_cons_self _ _)
      have hr : k ∉ rest := fun hm => h (List.mem_cons_of_mem _ hm)
      rw [List.zip_cons_cons, pyDictGet_cons, ih vs hr]
      simp [hk]

theorem pyDictGet_zip_isSome (keys : List String) (vals : List Nat) (k : String)
    (hlen : vals.length = keys.length) (h : k ∈ keys) :
    ∃ v, pyDictGet (keys.zip vals) k = some v := by
  induction keys generalizing vals with
  | nil => cases h
  | cons k2 rest ih =>
    cases vals with
    | nil => simp at hlen
    | cons v vs =>
      by_cases hr : k ∈ rest
      · obtain ⟨w, hw⟩ := ih vs (by simpa using hlen) hr
        exact ⟨w, by rw [List.zip_cons_cons, pyDictGet_cons, hw]⟩
      · have hk : k = k2 := by
          rcases List.mem_cons.mp h with h1 | h1
          · exact h1
          · exact absurd h1 hr
        refine ⟨v, ?_⟩
        rw [List.zip_cons_cons, pyDictGet_cons, pyDictGet_zip_none rest vs k hr]
        simp [hk]

theorem lookupCells_spec (d : List (String × Nat)) (ns : List String)
    (h : ∀ n ∈ ns, ∃ v, pyDictGet d n = some v) :
    ∃ cl, lookupCells d ns = some cl ∧ cl.length = ns.length
      ∧ ∀ i n, ns.get? i = some n → cl.get? i = pyDictGet d n := by
  induction ns with
  | nil =>
    refine ⟨[], rfl, rfl, ?_⟩
    intro i n hn
    cases i <;> simp at hn
  | cons n ns ih =>
    obtain ⟨v, hv⟩ := h n (List.mem_cons_self _ _)
    obtain ⟨cl, hcl, hlen, hidx⟩ := ih (fun m hm => h m (List.mem_cons_of_mem _ hm))
    refine ⟨v :: cl, by simp [lookupCells, hv, hcl], by simp [hlen], ?_⟩
    intro i m hm
    cases i with
    | zero =>
      simp only [List.get?] at hm
      cases hm
      simp [hv]
    | succ i =>
      simp only [List.get?] at hm ⊢
      exact hidx i m hm

/-- C9: with each closure matching its code object's free-variable list in
length, `_attach_closure` succeeds and produces one cell per generated free
variable, in the generated code object's free-variable order; the slot of a
name also bound in the original function's closure holds the original
function's cell (the original dict shadows the Wrap-created placeholder), and
any other slot holds the generated function's own cell. -/
theorem C9_attach_closure (genFv origFv : List String) (genCl origCl : List Nat)
    (hgen : genCl.length = genFv.length)
    (horig : origCl.length = origFv.length) :
    ∃ closure, attach_closure genFv genCl origFv origCl = some closure
      ∧ closure.length = genFv.length
      ∧ (∀ i n, genFv.get? i = some n → n ∈ origFv →
          closure.get? i = pyDictGet (origFv.zip origCl) n)
      ∧ (∀ i n, genFv.get? i = some n → n ∉ origFv →
          closure.get? i = pyDictGet (genFv.zip genCl) n) := by
  have hall : ∀ n ∈ genFv,
      ∃ v, pyDictGet (genFv.zip genCl ++ origFv.zip origCl) n = some v := by
    intro n hn
    rw [pyDictGet_append]
    by_cases ho : n ∈ origFv
    · obtain ⟨v, hv⟩ := pyDictGet_zip_isSome origFv origCl n horig ho
      exact ⟨v, by simp [hv]⟩
    · obtain ⟨v, hv⟩ := pyDictGet_zip_isSome genFv genCl n hgen hn
      simp [pyDictGet_zip_none origFv origCl n ho, hv]
  obtain ⟨cl, hcl, hlen, hidx⟩ :=
    lookupCells_spec (genFv.zip genCl ++ origFv.zip origCl) genFv hall
  refine ⟨cl, hcl, hlen, ?_, ?_⟩
  · intro i n hi ho
    obtain ⟨v, hv⟩ := pyDictGet_zip_isSome origFv origCl n horig ho
    rw [hidx i n hi, pyDictGet_append, hv]
  · intro i n hi ho
    rw [hidx i n hi, pyDictGet_append, pyDictGet_zip_none origFv origCl n ho]

/-- C9 witness: generated free variables `a, b` with placeholder cells
`10, 11`; the original function's closure binds `b` to cell `99`, which takes
precedence in slot 1 while slot 0 keeps the generated cell. -/
theorem C9_witness :
    ∃ closure, attach_closure ["a", "b"] [10, 11] ["b"] [99] = some closure
      ∧ closure.length = (["a", "b"] : List String).length
      ∧ (∀ i n, (["a", "b"] : List String).get? i = some n → n ∈ ["b"] →
          closure.get? i = pyDictGet ((["b"] : List String).zip [99]) n)
      ∧ (∀ i n, (["a", "b"] : List String).get? i = some n → n ∉ ["b"] →
          closure.get? i = pyDictGet ((["a", "b"] : List String).zip [10, 11]) n) :=
  C9_attach_closure ["a", "b"] ["b"] [10, 11] [99] rfl rfl

end Pyctr
